import Mathlib

/-!
Shallow embedding of the apk-editor repository (Rust) in Lean 4, together
with theorems about its ZIP reader/editor (src/apk_zip) and Android binary
XML codec (src/manifest).

Modelling conventions, used consistently below:
* Byte buffers (`Vec<u8>`, `&[u8]`) are `List Nat`; every byte written by
  the model is masked to `< 256` exactly as the Rust code masks with
  `& 0xff`.
* Rust `String` is modelled by its content: in the ZIP module as its UTF-8
  byte list (names are only constructed, compared, and measured by byte
  length there), and in the AXML module as its list of Unicode scalar
  values (there strings are decoded from UTF-16, re-encoded, and measured
  both in UTF-8 bytes and UTF-16 units).
* Reads that would panic in Rust on an out-of-range index are modelled with
  `List.getD _ _ 0` (total, default 0) except where a claim depends on the
  panic itself; range slices use `slice?`, which returns `none` exactly
  when Rust would panic, and `.unwrap()` on `None`/`Err` is modelled as the
  abort value of an `Option`/`Except`.
* `u32`/`u16` stores truncate through the little-endian byte encodings
  `le32`/`le16`, mirroring the `as u32`/`as u16` casts at the write sites.
* DEFLATE compression and CRC32 are external crates (`flate2`,
  `crc32fast`); functions that use them take them as parameters
  (`deflate`, `crc`), so every theorem holds for any implementation.
-/

set_option maxRecDepth 40000

namespace ApkEditor

/-- Decidable equality on `Except`, for evaluating the `ZipFile::from`
outcomes in the concrete theorems. -/
instance {ε α : Type} [DecidableEq ε] [DecidableEq α] : DecidableEq (Except ε α) :=
  fun x y =>
    match x, y with
    | .ok a, .ok b =>
      if h : a = b then isTrue (by rw [h])
      else isFalse (fun hc => h (Except.ok.inj hc))
    | .error a, .error b =>
      if h : a = b then isTrue (by rw [h])
      else isFalse (fun hc => h (Except.error.inj hc))
    | .ok _, .error _ => isFalse (fun hc => Except.noConfusion hc)
    | .error _, .ok _ => isFalse (fun hc => Except.noConfusion hc)

/-! ## Byte utilities (src/utils.rs) -/

/-- A single byte read `data[offset]`; Rust panics out of range, the model
returns 0 (claims below only evaluate in-range reads). -/
def byteAt (data : List Nat) (off : Nat) : Nat := data.getD off 0

/-- `get_leu16_value`: `data[off] | (data[off+1] << 8)`. -/
def getLeu16 (data : List Nat) (off : Nat) : Nat :=
  byteAt data off ||| (byteAt data (off + 1) <<< 8)

/-- `get_leu32_value`. -/
def getLeu32 (data : List Nat) (off : Nat) : Nat :=
  byteAt data off ||| (byteAt data (off + 1) <<< 8) |||
    (byteAt data (off + 2) <<< 16) ||| (byteAt data (off + 3) <<< 24)

/-- `get_le32_value` returns `i32` in Rust; it is only ever compared
against non-negative constants below `2^31` (chunk magics) or against a
buffer length, and a value with the sign bit set can never equal those, so
the untruncated `Nat` read is observationally equal there. -/
def getLe32 (data : List Nat) (off : Nat) : Nat := getLeu32 data off

/-- `push_leu32` / `write_u32::<LittleEndian>` byte image of a value
(`& 0xff` masking as in the Rust code; also absorbs an `as u32` cast). -/
def le32 (v : Nat) : List Nat :=
  [v &&& 255, (v >>> 8) &&& 255, (v >>> 16) &&& 255, (v >>> 24) &&& 255]

/-- `write_u16::<LittleEndian>` byte image (also absorbs an `as u16` cast). -/
def le16 (v : Nat) : List Nat := [v &&& 255, (v >>> 8) &&& 255]

/-- Rust slice `data[a..b]`: `none` exactly when Rust panics. -/
def slice? (data : List Nat) (a b : Nat) : Option (List Nat) :=
  if a ≤ b ∧ b ≤ data.length then some ((data.drop a).take (b - a)) else none

/-! Decoding lemmas for the little-endian encodings. -/

theorem and_255_eq_mod (x : Nat) : x &&& 255 = x % 256 := by
  have h : (255 : Nat) = 2 ^ 8 - 1 := by norm_num
  rw [h, Nat.and_pow_two_sub_one_eq_mod]

theorem lor_shiftLeft_eq_add {a : Nat} (b k : Nat) (ha : a < 2 ^ k) :
    a ||| (b <<< k) = a + b * 2 ^ k := by
  rw [Nat.shiftLeft_eq, Nat.lor_comm, Nat.mul_comm b (2 ^ k),
    ← Nat.mul_add_lt_is_or ha b]
  omega

theorem byteAt_le16 (v : Nat) (rest : List Nat) :
    byteAt (le16 v ++ rest) 0 = v % 256 ∧
      byteAt (le16 v ++ rest) 1 = v / 256 % 256 := by
  constructor <;>
    simp [byteAt, le16, and_255_eq_mod, Nat.shiftRight_eq_div_pow]

theorem getLeu16_le16 (v : Nat) (rest : List Nat) (hv : v < 65536) :
    getLeu16 (le16 v ++ rest) 0 = v := by
  have h0 : byteAt (le16 v ++ rest) 0 = v % 256 := (byteAt_le16 v rest).1
  have h1 : byteAt (le16 v ++ rest) 1 = v / 256 % 256 := (byteAt_le16 v rest).2
  have hlt : v / 256 < 256 := by omega
  rw [getLeu16, h0, h1, Nat.mod_eq_of_lt hlt,
    lor_shiftLeft_eq_add (v / 256) 8 (by have := Nat.mod_lt v (y := 256) (by omega); simpa using this)]
  have : (2 : Nat) ^ 8 = 256 := by norm_num
  omega

theorem byteAt_le32 (v : Nat) (rest : List Nat) :
    byteAt (le32 v ++ rest) 0 = v % 256 ∧
      byteAt (le32 v ++ rest) 1 = v / 256 % 256 ∧
      byteAt (le32 v ++ rest) 2 = v / 65536 % 256 ∧
      byteAt (le32 v ++ rest) 3 = v / 16777216 % 256 := by
  refine ⟨?_, ?_, ?_, ?_⟩ <;>
    simp [byteAt, le32, and_255_eq_mod, Nat.shiftRight_eq_div_pow]

theorem getLeu32_le32 (v : Nat) (rest : List Nat) (hv : v < 4294967296) :
    getLeu32 (le32 v ++ rest) 0 = v := by
  obtain ⟨h0, h1, h2, h3⟩ := byteAt_le32 v rest
  rw [getLeu32, h0, h1, h2, h3]
  have e1 : v % 256 ||| (v / 256 % 256) <<< 8 = v % 256 + v / 256 % 256 * 2 ^ 8 :=
    lor_shiftLeft_eq_add _ 8 (by have := Nat.mod_lt v (y := 256) (by omega); simpa using this)
  have l16 : v % 256 + v / 256 % 256 * 2 ^ 8 < 2 ^ 16 := by
    have ha := Nat.mod_lt v (y := 256) (by omega : 0 < 256)
    have hb := Nat.mod_lt (v / 256) (y := 256) (by omega : 0 < 256)
    have : (2 : Nat) ^ 8 = 256 := by norm_num
    have : (2 : Nat) ^ 16 = 65536 := by norm_num
    nlinarith
  have e2 : v % 256 ||| (v / 256 % 256) <<< 8 ||| (v / 65536 % 256) <<< 16 =
      v % 256 + v / 256 % 256 * 2 ^ 8 + v / 65536 % 256 * 2 ^ 16 := by
    rw [e1, lor_shiftLeft_eq_add _ 16 l16]
  have l24 : v % 256 + v / 256 % 256 * 2 ^ 8 + v / 65536 % 256 * 2 ^ 16 < 2 ^ 24 := by
    have hc := Nat.mod_lt (v / 65536) (y := 256) (by omega : 0 < 256)
    have : (2 : Nat) ^ 16 = 65536 := by norm_num
    have : (2 : Nat) ^ 24 = 16777216 := by norm_num
    nlinarith
  rw [e2, lor_shiftLeft_eq_add _ 24 l24]
  have p8 : (2 : Nat) ^ 8 = 256 := by norm_num
  have p16 : (2 : Nat) ^ 16 = 65536 := by norm_num
  have p24 : (2 : Nat) ^ 24 = 16777216 := by norm_num
  rw [p8, p16, p24]
  omega

theorem byteAt_append_right (l1 l2 : List Nat) (k : Nat) :
    byteAt (l1 ++ l2) (l1.length + k) = byteAt l2 k := by
  simp [byteAt, List.getElem?_append_right (by omega : l1.length ≤ l1.length + k)]

theorem getLeu16_append_right (l1 l2 : List Nat) (k : Nat) :
    getLeu16 (l1 ++ l2) (l1.length + k) = getLeu16 l2 k := by
  have h1 := byteAt_append_right l1 l2 k
  have h2 := byteAt_append_right l1 l2 (k + 1)
  simp only [getLeu16, h1]
  rw [show l1.length + k + 1 = l1.length + (k + 1) by omega, h2]

theorem getLeu32_append_right (l1 l2 : List Nat) (k : Nat) :
    getLeu32 (l1 ++ l2) (l1.length + k) = getLeu32 l2 k := by
  have h1 := byteAt_append_right l1 l2 k
  have h2 := byteAt_append_right l1 l2 (k + 1)
  have h3 := byteAt_append_right l1 l2 (k + 2)
  have h4 := byteAt_append_right l1 l2 (k + 3)
  simp only [getLeu32, h1]
  rw [show l1.length + k + 1 = l1.length + (k + 1) by omega, h2,
    show l1.length + k + 2 = l1.length + (k + 2) by omega, h3,
    show l1.length + k + 3 = l1.length + (k + 3) by omega, h4]

/-! ## Text codecs

`String::from_utf8` validity (RFC 3629 well-formedness, as checked by the
Rust standard library), `encode_utf16`, `String::from_utf16`, UTF-8 byte
length (`String::len`), and `usize::to_string` decimal rendering. -/

/-- UTF-8 continuation byte `0x80..=0xBF`. -/
def isCont (b : Nat) : Bool := 128 ≤ b && b ≤ 191

/-- Well-formed UTF-8 (the check performed by `String::from_utf8`). -/
def isValidUtf8 : List Nat → Bool
  | [] => true
  | b :: rest =>
    if b ≤ 127 then isValidUtf8 rest
    else if 194 ≤ b && b ≤ 223 then
      match rest with
      | c1 :: r => isCont c1 && isValidUtf8 r
      | [] => false
    else if b = 224 then
      match rest with
      | c1 :: c2 :: r => (160 ≤ c1 && c1 ≤ 191) && isCont c2 && isValidUtf8 r
      | _ => false
    else if (225 ≤ b && b ≤ 236) || b = 238 || b = 239 then
      match rest with
      | c1 :: c2 :: r => isCont c1 && isCont c2 && isValidUtf8 r
      | _ => false
    else if b = 237 then
      match rest with
      | c1 :: c2 :: r => (128 ≤ c1 && c1 ≤ 159) && isCont c2 && isValidUtf8 r
      | _ => false
    else if b = 240 then
      match rest with
      | c1 :: c2 :: c3 :: r =>
        (144 ≤ c1 && c1 ≤ 191) && isCont c2 && isCont c3 && isValidUtf8 r
      | _ => false
    else if 241 ≤ b && b ≤ 243 then
      match rest with
      | c1 :: c2 :: c3 :: r => isCont c1 && isCont c2 && isCont c3 && isValidUtf8 r
      | _ => false
    else if b = 244 then
      match rest with
      | c1 :: c2 :: c3 :: r =>
        (128 ≤ c1 && c1 ≤ 143) && isCont c2 && isCont c3 && isValidUtf8 r
      | _ => false
    else false

/-- UTF-16 code units of one Unicode scalar value (`char::encode_utf16`). -/
def utf16Units (cp : Nat) : List Nat :=
  if cp < 65536 then [cp]
  else [55296 + (cp - 65536) / 1024, 56320 + (cp - 65536) % 1024]

/-- `str::encode_utf16` over a string given as scalar values. -/
def encodeUtf16 (s : List Nat) : List Nat := (s.map utf16Units).flatten

/-- `String::from_utf16`: decode code units to scalar values, `none` on a
lone or mismatched surrogate (Rust returns `FromUtf16Error`). -/
def decodeUtf16 : List Nat → Option (List Nat)
  | [] => some []
  | u :: rest =>
    if u < 55296 || 57344 ≤ u then
      match decodeUtf16 rest with
      | some s => some (u :: s)
      | none => none
    else if u < 56320 then
      match rest with
      | u2 :: rest2 =>
        if 56320 ≤ u2 && u2 < 57344 then
          match decodeUtf16 rest2 with
          | some s => some ((65536 + (u - 55296) * 1024 + (u2 - 56320)) :: s)
          | none => none
        else none
      | [] => none
    else none

/-- UTF-8 byte count of one scalar value. -/
def utf8LenChar (cp : Nat) : Nat :=
  if cp < 128 then 1 else if cp < 2048 then 2 else if cp < 65536 then 3 else 4

/-- `String::len` (UTF-8 byte count) of a string given as scalar values. -/
def utf8Len (s : List Nat) : Nat := (s.map utf8LenChar).sum

/-- Little-endian decimal digits, fuelled so that the recursion is
structural (`natDigitsAux (n+1) n` always has enough fuel). -/
def natDigitsAux : Nat → Nat → List Nat
  | 0, _ => []
  | fuel + 1, n => if n < 10 then [n] else n % 10 :: natDigitsAux fuel (n / 10)

def natDigitsLE (n : Nat) : List Nat := natDigitsAux (n + 1) n

/-- `usize::to_string`: ASCII bytes of the decimal rendering. -/
def natAscii (n : Nat) : List Nat := (natDigitsLE n).reverse.map (· + 48)

def ofDigitsLE : List Nat → Nat
  | [] => 0
  | d :: r => d + 10 * ofDigitsLE r

theorem ofDigitsLE_natDigitsAux :
    ∀ fuel n, n < fuel → ofDigitsLE (natDigitsAux fuel n) = n := by
  intro fuel
  induction fuel with
  | zero => intro n h; omega
  | succ f ih =>
    intro n h
    by_cases h10 : n < 10
    · simp [natDigitsAux, h10, ofDigitsLE]
    · have hdiv : n / 10 < n := Nat.div_lt_self (by omega) (by omega)
      simp only [natDigitsAux, if_neg h10, ofDigitsLE]
      rw [ih (n / 10) (by omega)]
      omega

theorem natDigitsLE_inj {m n : Nat} (h : natDigitsLE m = natDigitsLE n) : m = n := by
  have hm := ofDigitsLE_natDigitsAux (m + 1) m (by omega)
  have hn := ofDigitsLE_natDigitsAux (n + 1) n (by omega)
  have h2 : natDigitsAux (m + 1) m = natDigitsAux (n + 1) n := h
  rw [← hm, ← hn, h2]

theorem natAscii_inj {m n : Nat} (h : natAscii m = natAscii n) : m = n := by
  apply natDigitsLE_inj
  have hrev : (natDigitsLE m).reverse = (natDigitsLE n).reverse := by
    apply List.map_injective_iff.mpr (fun a b hab => by omega) h
  have := congrArg List.reverse hrev
  simpa using this

/-! ## ZIP data model and reader (src/apk_zip/mod.rs, src/apk_zip/zip.rs) -/

inductive CompressMethod where
  | stored
  | deflated
deriving DecidableEq, Repr

/-- `CompressMethod::value`. -/
def CompressMethod.value : CompressMethod → Nat
  | .stored => 0
  | .deflated => 8

/-- `CompressMethod::convert_from_u16`. -/
def CompressMethod.convertFromU16 (v : Nat) : Option CompressMethod :=
  if v = 0 then some .stored else if v = 8 then some .deflated else none

def LOCAL_FILE_HEADER : Nat := 0x4034b50
def CENTRAL_DIRECTORY_END : Nat := 0x6054b50
def CENTRAL_DIRECTORY : Nat := 0x2014b50

/-- Reasons of `ZipFormatError` (the `&'static str` messages). -/
inductive ZipErrReason where
  | eocdNotFound
  | cdMagic
  | nameConvert
deriving DecidableEq, Repr

/-- How `ZipFile::from` can fail: a returned `ZipFormatError{offset,reason}`
or a Rust panic (an `unwrap()` of `None`/`Err`, or an arithmetic
underflow). -/
inductive ZipAbort where
  | fmtErr (offset : Nat) (reason : ZipErrReason)
  | crash
deriving DecidableEq, Repr

structure ZipEntry where
  originSize : Nat
  compressedSize : Nat
  fileName : List Nat
  crc32 : Nat
  compressMethod : CompressMethod
  modifyTime : Nat
  localFileHeaderOffset : Nat
  centralDirectoryHeaderOffset : Nat
  entrySize : Nat
  extLen : Nat
deriving DecidableEq, Repr

structure ZipFile where
  data : List Nat
  centralDirectoryOffset : Nat
  entries : List ZipEntry
  fileNameMap : List (List Nat × Nat)
deriving DecidableEq, Repr

/-- `HashMap::insert` on the name index (replace an existing key's value,
otherwise add the binding). -/
def mapInsert (m : List (List Nat × Nat)) (k : List Nat) (v : Nat) :
    List (List Nat × Nat) :=
  match m with
  | [] => [(k, v)]
  | (k0, v0) :: rest =>
    if k0 = k then (k0, v) :: rest else (k0, v0) :: mapInsert rest k v

/-- `HashMap::get` on the name index. -/
def mapGet (m : List (List Nat × Nat)) (k : List Nat) : Option Nat :=
  match m with
  | [] => none
  | (k0, v0) :: rest => if k0 = k then some v0 else mapGet rest k

/-- The backward EOCD scan loop of `ZipFile::from`. `seek` is
`seek_index`; the fuel keeps the recursion structural and `65536` covers
every reachable `seek` (the loop errors out at `seek > 65535`). Order of
checks matches the Rust loop: read the magic at `len-22-seek`, then
increment and evaluate `len-22-seek' < 4 || seek' > 65535`, whose first
subtraction panics (`crash`) if it underflows. -/
def findEocdLoop (data : List Nat) : Nat → Nat → Except ZipAbort Nat
  | 0, _ => .error .crash
  | fuel + 1, seek =>
    let c := data.length - 22
    if getLeu32 data (c - seek) = CENTRAL_DIRECTORY_END then .ok (c - seek)
    else
      let s1 := seek + 1
      if c < s1 then .error .crash
      else if c - s1 < 4 ∨ 65535 < s1 then .error (.fmtErr (c - s1) .eocdNotFound)
      else findEocdLoop data fuel s1

/-- The EOCD location step of `ZipFile::from`; buffers shorter than 22
bytes make the very first `data.len() - 22` underflow in Rust. -/
def findEocd (data : List Nat) : Except ZipAbort Nat :=
  if data.length < 22 then .error .crash else findEocdLoop data 65536 0

/-- The central-directory walk of `ZipFile::from`: one iteration per
declared entry (`parse_count < dir_count`), so the declared count is the
fuel. Keeps the source's behaviour: the name-index insert happens before
the entry is built, and the compression-method `unwrap()` panics
(`crash`) on an unknown method. -/
def parseCdLoop (data : List Nat) :
    Nat → Nat → List ZipEntry → List (List Nat × Nat) →
      Except ZipAbort (List ZipEntry × List (List Nat × Nat))
  | 0, _, entries, map => .ok (entries, map)
  | fuel + 1, off, entries, map =>
    if getLeu32 data off ≠ CENTRAL_DIRECTORY then .error (.fmtErr off .cdMagic)
    else
      let fileNameLen := getLeu16 data (off + 28)
      let extLen := getLeu16 data (off + 30)
      let commentLen := getLeu16 data (off + 32)
      match slice? data (off + 46) (off + 46 + fileNameLen) with
      | none => .error .crash
      | some fileName =>
        if ¬ isValidUtf8 fileName then .error (.fmtErr off .nameConvert)
        else
          let map2 := mapInsert map fileName entries.length
          match CompressMethod.convertFromU16 (getLeu16 data (off + 10)) with
          | none => .error .crash
          | some compressMethod =>
            let entry : ZipEntry :=
              { originSize := getLeu32 data (off + 24)
                compressedSize := getLeu32 data (off + 20)
                fileName := fileName
                crc32 := getLeu32 data (off + 16)
                compressMethod := compressMethod
                modifyTime := getLeu32 data (off + 12)
                localFileHeaderOffset := getLeu32 data (off + 42)
                centralDirectoryHeaderOffset := off
                entrySize := 46 + fileNameLen + extLen + commentLen
                extLen := extLen }
            parseCdLoop data fuel (off + entry.entrySize) (entries ++ [entry]) map2

/-- `ZipFile::from`. -/
def zipFrom (data : List Nat) : Except ZipAbort ZipFile :=
  match findEocd data with
  | .error e => .error e
  | .ok eocdOff =>
    let cdOffset := getLeu32 data (eocdOff + 16)
    let dirCount := getLeu16 data (eocdOff + 10)
    match parseCdLoop data dirCount cdOffset [] [] with
    | .error e => .error e
    | .ok (entries, map) =>
      .ok { data := data, centralDirectoryOffset := cdOffset,
            entries := entries, fileNameMap := map }

/-- `ZipFile::get_file_index`. -/
def ZipFile.getFileIndex (zip : ZipFile) (name : List Nat) : Option Nat :=
  mapGet zip.fileNameMap name

/-! ## ZIP editor (src/apk_zip/editor.rs) -/

structure AppendZipEntry where
  data : List Nat
  compressMethod : CompressMethod
  fileName : List Nat
  modifyTime : Nat
deriving DecidableEq, Repr

structure EditZipEntry where
  originEntry : ZipEntry
  remove : Bool
  edit : Option (List Nat)
deriving DecidableEq, Repr

structure ZipEditor where
  editableEntries : List EditZipEntry
  appendEntries : List AppendZipEntry
deriving DecidableEq, Repr

/-- `ZipEditor::new`. -/
def ZipEditor.new : ZipEditor := { editableEntries := [], appendEntries := [] }

/-- `ZipEditor::from`. -/
def editorFrom (zipFile : ZipFile) : ZipEditor :=
  { editableEntries :=
      zipFile.entries.map (fun e => { originEntry := e, remove := false, edit := none })
    appendEntries := [] }

/-- `ZipEditor::append_file`. -/
def ZipEditor.appendFile (ed : ZipEditor) (data : List Nat) (fileName : List Nat)
    (method : CompressMethod) : ZipEditor :=
  { ed with appendEntries := ed.appendEntries ++
      [{ data := data, compressMethod := method, fileName := fileName, modifyTime := 0 }] }

/-- `ZipEditor::edit_file`; the `Bool` is the returned `Option<()>`
(`false` = `None`, editor unchanged). -/
def ZipEditor.editFile (ed : ZipEditor) (originZip : ZipFile) (name : List Nat)
    (data : List Nat) : ZipEditor × Bool :=
  match originZip.getFileIndex name with
  | none => (ed, false)
  | some idx =>
    match ed.editableEntries[idx]? with
    | none => (ed, false)
    | some item =>
      ({ ed with editableEntries :=
          ed.editableEntries.set idx { item with edit := some data } }, true)

/-- `ZipEditor::remove_file`. -/
def ZipEditor.removeFile (ed : ZipEditor) (originZip : ZipFile) (name : List Nat) :
    ZipEditor × Bool :=
  match originZip.getFileIndex name with
  | none => (ed, false)
  | some idx =>
    match ed.editableEntries[idx]? with
    | none => (ed, false)
    | some item =>
      ({ ed with editableEntries :=
          ed.editableEntries.set idx { item with remove := true } }, true)

/-- The mutating operations a caller can run on a `ZipEditor` between its
construction and `finish` (claim C9 quantifies over them). -/
inductive EditorOp where
  | editOp (name : List Nat) (data : List Nat)
  | removeOp (name : List Nat)
  | appendOp (data : List Nat) (name : List Nat) (method : CompressMethod)
deriving DecidableEq, Repr

/-- Apply one operation (a failed name lookup leaves the editor
unchanged, as in the source). -/
def editorStep (originZip : ZipFile) (ed : ZipEditor) : EditorOp → ZipEditor
  | .editOp name data => (ed.editFile originZip name data).1
  | .removeOp name => (ed.removeFile originZip name).1
  | .appendOp data name method => ed.appendFile data name method

def applyOps (originZip : ZipFile) (ed : ZipEditor) (ops : List EditorOp) :
    ZipEditor :=
  ops.foldl (editorStep originZip) ed

structure FileHeaderBuilder where
  fileName : List Nat
  compressMethod : CompressMethod
  originSize : Nat
  compressSize : Nat
  crc32 : Nat
  lfdExt : Option (List Nat)
deriving DecidableEq, Repr

/-- `FileHeaderBuilder::from_entry`; the extra-field slice of the original
local file header panics (`none`) when out of range. -/
def FileHeaderBuilder.fromEntry (zip : ZipFile) (entry : ZipEntry) :
    Option FileHeaderBuilder :=
  let lfhOffset := entry.localFileHeaderOffset
  let fileNameLen := getLeu16 zip.data (lfhOffset + 26)
  let extStart := lfhOffset + 30 + fileNameLen
  let extLen := getLeu16 zip.data (lfhOffset + 28)
  let extEnd := extStart + extLen
  let base : FileHeaderBuilder :=
    { fileName := entry.fileName, compressMethod := entry.compressMethod,
      originSize := entry.originSize, compressSize := entry.compressedSize,
      crc32 := entry.crc32, lfdExt := none }
  if extLen = 0 then some base
  else
    match slice? zip.data extStart extEnd with
    | none => none
    | some ext => some { base with lfdExt := some ext }

/-- `FileHeaderBuilder::new`. -/
def FileHeaderBuilder.make (fileName : List Nat) (method : CompressMethod)
    (originSize compressSize crc32 : Nat) : FileHeaderBuilder :=
  { fileName := fileName, compressMethod := method, originSize := originSize,
    compressSize := compressSize, crc32 := crc32, lfdExt := none }

def FileHeaderBuilder.originExtLen (fh : FileHeaderBuilder) : Nat :=
  match fh.lfdExt with
  | some v => v.length
  | none => 0

def FileHeaderBuilder.originExtBytes (fh : FileHeaderBuilder) : List Nat :=
  match fh.lfdExt with
  | some v => v
  | none => []

/-- The `align_count` computation in `FileHeaderBuilder::write_lfh`. For
`align = 0` the Rust `%` panics; theorems below assume `0 < align`. -/
def alignCountOf (fh : FileHeaderBuilder) (offset align : Nat) : Nat :=
  if fh.compressMethod ≠ .stored then 0
  else (align - (offset + (30 + fh.fileName.length + fh.originExtLen)) % align) % align

def FileHeaderBuilder.newExtLen (fh : FileHeaderBuilder) (offset align : Nat) : Nat :=
  fh.originExtLen + alignCountOf fh offset align

/-- Bytes emitted by `FileHeaderBuilder::write_lfh`. -/
def FileHeaderBuilder.writeLfh (fh : FileHeaderBuilder) (offset align : Nat) :
    List Nat :=
  le32 LOCAL_FILE_HEADER ++ le16 0 ++ le16 0 ++ le16 fh.compressMethod.value ++
    le32 0 ++ le32 fh.crc32 ++ le32 fh.compressSize ++ le32 fh.originSize ++
    le16 fh.fileName.length ++ le16 (fh.newExtLen offset align) ++
    fh.fileName ++ fh.originExtBytes ++
    List.replicate (alignCountOf fh offset align) 0

/-- Return value of `write_lfh`: `30 + name_len + new_ext_len`. -/
def FileHeaderBuilder.lfhLen (fh : FileHeaderBuilder) (offset align : Nat) : Nat :=
  30 + fh.fileName.length + fh.newExtLen offset align

/-- Bytes emitted by `FileHeaderBuilder::write_cd` (always a 46-byte fixed
part with empty extra/comment, then the name). -/
def FileHeaderBuilder.writeCd (fh : FileHeaderBuilder) (lfhOffset : Nat) : List Nat :=
  le32 CENTRAL_DIRECTORY ++ le16 0 ++ le16 0 ++ le16 0 ++
    le16 fh.compressMethod.value ++ le32 0 ++ le32 fh.crc32 ++
    le32 fh.compressSize ++ le32 fh.originSize ++ le16 fh.fileName.length ++
    le16 0 ++ le16 0 ++ le16 0 ++ le16 0 ++ le32 0 ++ le32 lfhOffset ++
    fh.fileName

structure LocalFileHeader where
  globalOffset : Nat
  compressVersion : Nat
  flags : Nat
  compressMethod : CompressMethod
  modifyTime : Nat
  crc32 : Nat
  compressedSize : Nat
  originSize : Nat
  fileNameLen : Nat
  extLen : Nat
  fileName : List Nat
  extData : List Nat
deriving DecidableEq, Repr

/-- `LocalFileHeader::from_slice`; its `unwrap()`s (name UTF-8 validity,
compression method) and slice panics are `none`. -/
def LocalFileHeader.fromSlice (data : List Nat) (offset : Nat) :
    Option LocalFileHeader :=
  let fileNameLen := getLeu16 data (offset + 26)
  let extLen := getLeu16 data (offset + 28)
  match slice? data (offset + 30) (offset + 30 + fileNameLen) with
  | none => none
  | some nameBytes =>
    if ¬ isValidUtf8 nameBytes then none
    else
      match CompressMethod.convertFromU16 (getLeu16 data (offset + 8)) with
      | none => none
      | some m =>
        match slice? data (offset + 30 + fileNameLen)
            (offset + 30 + (fileNameLen + extLen)) with
        | none => none
        | some ext =>
          some { globalOffset := offset,
                 compressVersion := getLeu16 data (offset + 4),
                 flags := getLeu16 data (offset + 6),
                 compressMethod := m,
                 modifyTime := getLeu32 data (offset + 10),
                 crc32 := getLeu32 data (offset + 14),
                 compressedSize := getLeu32 data (offset + 18),
                 originSize := getLeu32 data (offset + 22),
                 fileNameLen := fileNameLen, extLen := extLen,
                 fileName := nameBytes, extData := ext }

def LocalFileHeader.getDataOffset (lfh : LocalFileHeader) : Nat :=
  lfh.globalOffset + lfh.fileNameLen + lfh.extLen + 30

def LocalFileHeader.getDataLen (lfh : LocalFileHeader) : Nat := lfh.compressedSize

/-- One emitted entry of `ZipEditor::finish`: the builder state at the
`write_lfh` call, the tracked `current_offset` at that point, the local
header and payload bytes written to the sink, and the central-directory
record appended to `central_directory_data`. -/
structure EntryEmit where
  lfhOffset : Nat
  fh : FileHeaderBuilder
  lfhBytes : List Nat
  payload : List Nat
  cdRec : List Nat
deriving DecidableEq, Repr

/-- The per-entry emission common to both loops of `ZipEditor::finish`:
the `write_lfh` call at `current_offset`, the payload write, and the
`write_cd` record; the second component is the new `current_offset`
(`current_offset + write_lfh return value + payload length`, as tracked by
the source). -/
def emitOne (fh : FileHeaderBuilder) (payload : List Nat) (off align : Nat) :
    EntryEmit × Nat :=
  ({ lfhOffset := off, fh := fh, lfhBytes := fh.writeLfh off align,
     payload := payload, cdRec := fh.writeCd off },
    off + fh.lfhLen off align + payload.length)

/-- The per-entry header/payload selection of the first loop of
`ZipEditor::finish`: untouched entries copy the original compressed bytes
(`none` when the slice would panic), edited `Stored` entries only get
`compressed_size` updated, edited `Deflated` entries get CRC and sizes
recomputed from the new payload. -/
def finishEditStep (deflate : List Nat → List Nat) (crc : List Nat → Nat)
    (originZip : ZipFile) (lfh : LocalFileHeader)
    (headerBuild : FileHeaderBuilder) (e : EditZipEntry) :
    Option (FileHeaderBuilder × List Nat) :=
  match e.edit with
  | none =>
    let dataStart := lfh.getDataOffset
    match slice? originZip.data dataStart (dataStart + lfh.getDataLen) with
    | none => none
    | some payload => some (headerBuild, payload)
  | some newFile =>
    if e.originEntry.compressMethod = .stored then
      some ({ headerBuild with compressSize := newFile.length }, newFile)
    else
      let crc32v := crc newFile
      let compressData := deflate newFile
      some ({ headerBuild with
        originSize := newFile.length
        compressSize := compressData.length
        crc32 := crc32v }, compressData)

/-- First loop of `ZipEditor::finish` (surviving source entries), carrying
`current_offset` and `file_count` exactly as the source does. -/
def finishEditLoop (deflate : List Nat → List Nat) (crc : List Nat → Nat)
    (originZip : ZipFile) (align : Nat) :
    List EditZipEntry → Nat → Nat → Option (List EntryEmit × Nat × Nat)
  | [], off, count => some ([], off, count)
  | e :: rest, off, count =>
    if e.remove then finishEditLoop deflate crc originZip align rest off count
    else
      match LocalFileHeader.fromSlice originZip.data
          e.originEntry.localFileHeaderOffset with
      | none => none
      | some lfh =>
        match FileHeaderBuilder.fromEntry originZip e.originEntry with
        | none => none
        | some headerBuild =>
          match finishEditStep deflate crc originZip lfh headerBuild e with
          | none => none
          | some (fh, payload) =>
            let em := emitOne fh payload off align
            match finishEditLoop deflate crc originZip align rest em.2
                (count + 1) with
            | none => none
            | some (emits, offF, countF) => some (em.1 :: emits, offF, countF)

/-- `compress_data_opt` of the append loop of `ZipEditor::finish`:
appended non-`Stored` entries are deflated first. -/
def appendCompressData (deflate : List Nat → List Nat) (a : AppendZipEntry) :
    Option (List Nat) :=
  if a.compressMethod ≠ .stored then some (deflate a.data) else none

/-- The `FileHeaderBuilder::new` call of the append loop: CRC32 is always
recomputed, the compressed size is the deflated length when compressing. -/
def appendFh (deflate : List Nat → List Nat) (crc : List Nat → Nat)
    (a : AppendZipEntry) : FileHeaderBuilder :=
  FileHeaderBuilder.make a.fileName a.compressMethod a.data.length
    (match appendCompressData deflate a with
     | some d => d.length
     | none => a.data.length)
    (crc a.data)

/-- The payload written for an appended entry. -/
def appendPayload (deflate : List Nat → List Nat) (a : AppendZipEntry) :
    List Nat :=
  match appendCompressData deflate a with
  | some d => d
  | none => a.data

/-- Second loop of `ZipEditor::finish` (appended entries). No panics are
possible here, so it is total. -/
def finishAppendLoop (deflate : List Nat → List Nat) (crc : List Nat → Nat)
    (align : Nat) :
    List AppendZipEntry → Nat → Nat → List EntryEmit × Nat × Nat
  | [], off, count => ([], off, count)
  | a :: rest, off, count =>
    let em := emitOne (appendFh deflate crc a) (appendPayload deflate a) off align
    let next := finishAppendLoop deflate crc align rest em.2 (count + 1)
    (em.1 :: next.1, next.2.1, next.2.2)

/-- EOCD bytes written at the end of `ZipEditor::finish`. -/
def eocdBytes (count cdSize cdOffset : Nat) : List Nat :=
  le32 CENTRAL_DIRECTORY_END ++ le16 0 ++ le16 0 ++ le16 count ++ le16 count ++
    le32 cdSize ++ le32 cdOffset ++ le16 0

/-- Both emission loops of `ZipEditor::finish`, returning the emitted
entries, the final `current_offset`, and the final `file_count`. -/
def finishCore (deflate : List Nat → List Nat) (crc : List Nat → Nat)
    (originZip : Option ZipFile) (ed : ZipEditor) (align : Nat) :
    Option (List EntryEmit × Nat × Nat) :=
  match originZip with
  | some oz =>
    match finishEditLoop deflate crc oz align ed.editableEntries 0 0 with
    | none => none
    | some (em1, off1, c1) =>
      let next := finishAppendLoop deflate crc align ed.appendEntries off1 c1
      some (em1 ++ next.1, next.2.1, next.2.2)
  | none =>
    let next := finishAppendLoop deflate crc align ed.appendEntries 0 0
    some (next.1, next.2.1, next.2.2)

/-- Local headers and payloads in emission order (what reaches the sink
before the central directory). -/
def emitBody (emits : List EntryEmit) : List Nat :=
  (emits.map (fun e => e.lfhBytes ++ e.payload)).flatten

/-- `central_directory_data`: the concatenated CD records. -/
def emitCd (emits : List EntryEmit) : List Nat := (emits.map (·.cdRec)).flatten

/-- `ZipEditor::finish`: full byte image written to the sink. The EOCD
carries the tracked `file_count` and `current_offset` counters and the CD
byte length, exactly as the source writes them. -/
def finishBytes (deflate : List Nat → List Nat) (crc : List Nat → Nat)
    (originZip : Option ZipFile) (ed : ZipEditor) (align : Nat) :
    Option (List Nat) :=
  match finishCore deflate crc originZip ed align with
  | none => none
  | some (emits, offF, count) =>
    let cd := emitCd emits
    some (emitBody emits ++ cd ++ eocdBytes count cd.length offF)

/-! ## APK facade (src/apk_zip/wrap.rs) -/

/-- `str::starts_with` on byte strings. -/
def listStartsWith : List Nat → List Nat → Bool
  | _, [] => true
  | [], _ :: _ => false
  | a :: as1, b :: bs => a = b && listStartsWith as1 bs

/-- `str::ends_with` on byte strings. -/
def listEndsWith (l suf : List Nat) : Bool := listStartsWith l.reverse suf.reverse

def classesBytes : List Nat := [99, 108, 97, 115, 115, 101, 115]

def dexSuffix : List Nat := [46, 100, 101, 120]

/-- The name `classes{n}.dex` built by `ApkFile::add_dex`. -/
def dexFileName (n : Nat) : List Nat := classesBytes ++ natAscii n ++ dexSuffix

structure ApkFile where
  data : List Nat
  zip : ZipFile
  editor : ZipEditor
  dexCount : Nat
deriving DecidableEq, Repr

/-- `ApkFile::from`: parse the ZIP, build the editor, and count the
name-index entries matching `classes*.dex` (iterating the `HashMap`
iterates its distinct keys; the model's association list has exactly those
keys). -/
def ApkFile.fromData (data : List Nat) : Except ZipAbort ApkFile :=
  match zipFrom data with
  | .error e => .error e
  | .ok zip =>
    let editor := editorFrom zip
    let dexCount := (zip.fileNameMap.filter
      (fun p => listStartsWith p.1 classesBytes && listEndsWith p.1 dexSuffix)).length
    .ok { data := data, zip := zip, editor := editor, dexCount := dexCount }

/-- `ApkFile::add_dex`: the name uses the current `dex_count`, which is
then incremented; the entry is appended with DEFLATE. -/
def ApkFile.addDex (a : ApkFile) (data : List Nat) : ApkFile :=
  { a with
    dexCount := a.dexCount + 1
    editor := a.editor.appendFile data (dexFileName a.dexCount) .deflated }

/-! ## AXML codec (src/manifest/axml.rs)

Strings here are lists of Unicode scalar values (the content of a Rust
`String`); parse failures of any kind (`FileFormatError`,
`FromUtf16Error` propagated with `?`, or an index panic inside
`get_string`) are `none`. -/

def START_TAG : Nat := 0x00100102
def END_TAG : Nat := 0x00100103
def START_NAMESPACE : Nat := 0x00100100
def END_NAMESPACE : Nat := 0x00100101
def STRING_CHUNK : Nat := 0x001C0001
def RESOURCE_CHUNK : Nat := 0x00080180
def XML_MAGIC : Nat := 0x00080003

structure XmlAttributeValue where
  namespaceUri : Option (List Nat)
  nameIndex : Nat
  name : List Nat
  valueType : Nat
  stringData : Option (List Nat)
  data : Nat
deriving DecidableEq, Repr

inductive XmlNode where
  | mk (tagName : List Nat) (attrs : List XmlAttributeValue) (children : List XmlNode)
deriving Repr

def XmlNode.tagName : XmlNode → List Nat
  | .mk t _ _ => t

def XmlNode.attrs : XmlNode → List XmlAttributeValue
  | .mk _ a _ => a

def XmlNode.children : XmlNode → List XmlNode
  | .mk _ _ c => c

/-- `XmlNode::push_child`. -/
def XmlNode.pushChild : XmlNode → XmlNode → XmlNode
  | .mk t a c, newChild => .mk t a (c ++ [newChild])

def XmlNode.withChildren : XmlNode → List XmlNode → XmlNode
  | .mk t a _, c => .mk t a c

structure StringChunk where
  data : List Nat
  chunkOffset : Nat
  chunkSize : Nat
  stringCount : Nat
  styleCount : Nat
  stringPoolOffset : Nat
  stylePoolOffset : Nat
  stringIndexGlobalOffset : Nat
  styleIndexGlobalOffset : Nat
deriving DecidableEq, Repr

/-- `StringChunk::parse`; returns the chunk view and the new cursor
(`chunk_offset + chunk_size`). -/
def StringChunk.parse (data : List Nat) (off : Nat) : Option (StringChunk × Nat) :=
  if getLe32 data off ≠ STRING_CHUNK then none
  else
    let chunkSize := getLeu32 data (off + 4)
    some ({ data := data, chunkOffset := off, chunkSize := chunkSize,
            stringCount := getLeu32 data (off + 8),
            styleCount := getLeu32 data (off + 12),
            stringPoolOffset := getLeu32 data (off + 20),
            stylePoolOffset := getLeu32 data (off + 24),
            stringIndexGlobalOffset := off + 28,
            styleIndexGlobalOffset := off + 32 }, off + chunkSize)

/-- The UTF-16 unit reads of `StringChunk::get_string`. -/
def readUnits (data : List Nat) (start n : Nat) : List Nat :=
  (List.range n).map fun i =>
    byteAt data (start + 2 * i) ||| (byteAt data (start + 2 * i + 1) <<< 8)

/-- `StringChunk::get_string`: length-prefixed UTF-16 at
`chunk_offset + string_pool_offset + index_table[i]`. -/
def StringChunk.getString (sc : StringChunk) (index : Nat) : Option (List Nat) :=
  let stringOffset := sc.stringPoolOffset + sc.chunkOffset +
    getLeu32 sc.data (sc.stringIndexGlobalOffset + 4 * index)
  let stringLen := byteAt sc.data stringOffset |||
    (byteAt sc.data (stringOffset + 1) <<< 8)
  decodeUtf16 (readUnits sc.data (stringOffset + 2) stringLen)

structure ResourceChunk where
  data : List Nat
  chunkOffset : Nat
  chunkSize : Nat
  chunkCount : Nat
deriving DecidableEq, Repr

/-- `ResourceChunk::parse`. `chunk_size/4 - 2` is `u32` arithmetic that
would panic for `chunk_size < 8`; `chunk_count` is never read afterwards,
so the truncated `Nat` subtraction is inconsequential. -/
def ResourceChunk.parse (data : List Nat) (off : Nat) : Option (ResourceChunk × Nat) :=
  let chunkSize := getLeu32 data (off + 4)
  if getLe32 data off ≠ RESOURCE_CHUNK then none
  else some ({ data := data, chunkOffset := off, chunkSize := chunkSize,
               chunkCount := chunkSize / 4 - 2 }, off + chunkSize)

structure XmlNameSpace where
  data : List Nat
  namespaceOffset : Nat
  lineNumber : Nat
  nsPfx : List Nat
  uri : List Nat
deriving DecidableEq, Repr

/-- `XmlNameSpace::parse` (the `prefix` field is `nsPfx` here). -/
def XmlNameSpace.parse (data : List Nat) (sc : StringChunk) (off : Nat) :
    Option (XmlNameSpace × Nat) :=
  if getLe32 data off ≠ START_NAMESPACE then none
  else
    match sc.getString (getLeu32 data (off + 16)),
        sc.getString (getLeu32 data (off + 20)) with
    | some p, some u =>
      some ({ data := data, namespaceOffset := off,
              lineNumber := getLeu32 data (off + 8), nsPfx := p, uri := u },
        off + getLeu32 data (off + 4))
    | _, _ => none

/-- `XmlNameSpace::valid_end_chunk` (does not advance the cursor). -/
def XmlNameSpace.validEndChunk (ns : XmlNameSpace) (data : List Nat)
    (sc : StringChunk) (off : Nat) : Bool :=
  if getLe32 data off ≠ END_NAMESPACE then false
  else
    match sc.getString (getLeu32 data (off + 16)),
        sc.getString (getLeu32 data (off + 20)) with
    | some p, some u => p = ns.nsPfx && u = ns.uri
    | _, _ => false

/-- Attribute records of `XmlNode::parse_node_recursion` (5 words each). -/
def parseAttrs (data : List Nat) (sc : StringChunk) :
    Nat → Nat → Option (List XmlAttributeValue × Nat)
  | off, 0 => some ([], off)
  | off, n + 1 =>
    let namespaceSi := getLeu32 data off
    let attrNameSi := getLeu32 data (off + 4)
    let attrRawValue := getLeu32 data (off + 8)
    let valueType := getLeu32 data (off + 12)
    let attrData := getLeu32 data (off + 16)
    match sc.getString attrNameSi with
    | none => none
    | some attrName =>
      let namespaceUri? : Option (Option (List Nat)) :=
        if namespaceSi = 4294967295 then some none
        else
          match sc.getString namespaceSi with
          | none => none
          | some s => some (some s)
      match namespaceUri? with
      | none => none
      | some namespaceUri =>
        let stringData? : Option (Option (List Nat)) :=
          if attrRawValue = 4294967295 then some none
          else
            match sc.getString attrRawValue with
            | none => none
            | some s => some (some s)
        match stringData? with
        | none => none
        | some stringData =>
          match parseAttrs data sc (off + 20) n with
          | none => none
          | some (rest, offF) =>
            some ({ namespaceUri := namespaceUri, nameIndex := attrNameSi,
                    name := attrName, valueType := valueType,
                    stringData := stringData, data := attrData } :: rest, offF)

mutual

/-- `XmlNode::parse_node_recursion` up to the end of the attribute list;
the body/while part is `parseNodeLoop`. The fuel makes the mutual
recursion structural; `data.length` is always enough because every
recursive call advances the cursor by at least 24 bytes. The attribute
count is a signed `i32` read: a negative value runs zero iterations. -/
def parseNode (data : List Nat) (sc : StringChunk) :
    Nat → Nat → Option (XmlNode × Nat)
  | 0, _ => none
  | fuel + 1, off =>
    let tagType := getLe32 data off
    let nameSi := getLeu32 data (off + 20)
    if tagType ≠ START_TAG then none
    else
      let attrNumber := getLe32 data (off + 28)
      let attrIters := if attrNumber < 2147483648 then attrNumber else 0
      match sc.getString nameSi with
      | none => none
      | some tagName =>
        match parseAttrs data sc (off + 36) attrIters with
        | none => none
        | some (attrs, off2) => parseNodeLoop data sc fuel tagName attrs [] off2

/-- The `while *current_offset < data.len()` body collecting children and
looking for the matching END_TAG. -/
def parseNodeLoop (data : List Nat) (sc : StringChunk) :
    Nat → List Nat → List XmlAttributeValue → List XmlNode → Nat →
      Option (XmlNode × Nat)
  | 0, _, _, _, _ => none
  | fuel + 1, tagName, attrs, children, off =>
    if off < data.length then
      let currentTagType := getLe32 data off
      if currentTagType = START_TAG then
        match parseNode data sc fuel off with
        | none => none
        | some (child, off2) =>
          parseNodeLoop data sc fuel tagName attrs (children ++ [child]) off2
      else if currentTagType = END_TAG then
        let currentNameSi := getLeu32 data (off + 20)
        match sc.getString currentNameSi with
        | none => none
        | some currentName =>
          let off2 := off + 24
          if currentName = tagName then
            some (XmlNode.mk tagName attrs children, off2)
          else parseNodeLoop data sc fuel tagName attrs children off2
      else none
    else some (XmlNode.mk tagName attrs children, off)

end

structure XmlContent where
  namespacePfx : List Nat
  namespaceUri : List Nat
  rootNode : XmlNode
deriving Repr

/-- `XmlContent::parse`. -/
def XmlContent.parse (data : List Nat) (sc : StringChunk) (off : Nat) :
    Option (XmlContent × Nat) :=
  match XmlNameSpace.parse data sc off with
  | none => none
  | some (ns, off1) =>
    match parseNode data sc data.length off1 with
    | none => none
    | some (root, off2) =>
      if ns.validEndChunk data sc off2 then
        some ({ namespacePfx := ns.nsPfx, namespaceUri := ns.uri,
                rootNode := root }, off2)
      else none

structure AndroidXml where
  data : List Nat
  stringChunk : StringChunk
  resourceChunk : ResourceChunk
  content : XmlContent
deriving Repr

/-- `AndroidXml::from_data`. -/
def AndroidXml.fromData (data : List Nat) : Option AndroidXml :=
  if getLe32 data 0 ≠ XML_MAGIC then none
  else if getLe32 data 4 ≠ data.length then none
  else
    match StringChunk.parse data 8 with
    | none => none
    | some (sc, off1) =>
      match ResourceChunk.parse data off1 with
      | none => none
      | some (rc, off2) =>
        match XmlContent.parse data sc off2 with
        | none => none
        | some (content, _) =>
          some { data := data, stringChunk := sc, resourceChunk := rc,
                 content := content }

/-! ### String-pool interning builder and regeneration -/

structure StringChunkBuilder where
  stringIndexMap : List (List Nat × Nat)
  stringArr : List (List Nat)
deriving DecidableEq, Repr

/-- `StringChunkBuilder::new`. -/
def StringChunkBuilder.new : StringChunkBuilder :=
  { stringIndexMap := [], stringArr := [] }

/-- `StringChunkBuilder::put`: the interning insert, returning the index
and the updated builder. -/
def StringChunkBuilder.put (b : StringChunkBuilder) (value : List Nat) :
    Nat × StringChunkBuilder :=
  match mapGet b.stringIndexMap value with
  | some i => (i, b)
  | none =>
    let res := b.stringIndexMap.length
    (res, { stringIndexMap := mapInsert b.stringIndexMap value res,
            stringArr := b.stringArr ++ [value] })

/-- The index-table loop of `StringChunkBuilder::build`: running offsets
advanced by `2 + str_item.len()*2 + 2`, where `len()` is the UTF-8 byte
length. -/
def buildIndexTable : List (List Nat) → Nat → List Nat
  | [], _ => []
  | s :: rest, off => le32 off ++ buildIndexTable rest (off + (2 + utf8Len s * 2 + 2))

/-- The per-string payload of `StringChunkBuilder::build`: a `u16` length
taken from `str_item.len()` (UTF-8 bytes), the UTF-16 code units, and a
two-byte terminator. -/
def strEnc (s : List Nat) : List Nat :=
  le16 (utf8Len s) ++
    ((encodeUtf16 s).map (fun ch => [ch &&& 255, (ch >>> 8) &&& 255])).flatten ++
    [0, 0]

/-- Back-patching `res[4..8]` with the final chunk length. -/
def patchLe32 (l : List Nat) (pos v : Nat) : List Nat :=
  ((((l.set pos (v &&& 255)).set (pos + 1) ((v >>> 8) &&& 255)).set (pos + 2)
      ((v >>> 16) &&& 255)).set (pos + 3) ((v >>> 24) &&& 255))

/-- `StringChunkBuilder::build`. -/
def StringChunkBuilder.build (b : StringChunkBuilder) : List Nat :=
  let header := le32 STRING_CHUNK ++ le32 0 ++ le32 b.stringArr.length ++
    le32 0 ++ le32 0 ++ le32 (7 * 4 + b.stringArr.length * 4) ++ le32 0
  let res0 := header ++ buildIndexTable b.stringArr 0 ++
    (b.stringArr.map strEnc).flatten
  let alignLen := 4 - res0.length % 4
  let res1 := if alignLen < 4 then res0 ++ List.replicate alignLen 0 else res0
  patchLe32 res1 4 res1.length

/-- The seeding loop shared by `StringChunkBuilder::init` and
`StringChunkBuilder::from_string_chunk`: `put(get_string(i).unwrap())` for
`i` in `0..string_count` (the `unwrap` panic is `none`). -/
def seedBuilderLoop (sc : StringChunk) : Nat → Nat → StringChunkBuilder →
    Option StringChunkBuilder
  | _, 0, b => some b
  | i, remaining + 1, b =>
    match sc.getString i with
    | none => none
    | some s => seedBuilderLoop sc (i + 1) remaining (b.put s).2

/-- `StringChunkBuilder::from_string_chunk` (also models `new` + `init`). -/
def StringChunkBuilder.fromStringChunk (sc : StringChunk) :
    Option StringChunkBuilder :=
  seedBuilderLoop sc 0 sc.stringCount StringChunkBuilder.new

mutual

/-- `XmlNode::regenerate`: appends the START_TAG chunk, attribute records,
children, and END_TAG chunk, threading the interning builder. -/
def XmlNode.regenerate : XmlNode → StringChunkBuilder →
    List Nat × StringChunkBuilder
  | .mk tagName attrs children, b =>
    let p1 := b.put tagName
    let head := le32 START_TAG ++ le32 (9 * 4 + attrs.length * 5 * 4) ++
      le32 1 ++ le32 4294967295 ++ le32 4294967295 ++ le32 p1.1 ++
      le32 0x00140014 ++ le32 attrs.length ++ le32 0
    let ra := regenAttrs attrs p1.2
    let rc := regenChildren children ra.2
    let p2 := rc.2.put tagName
    let tail := le32 END_TAG ++ le32 (6 * 4) ++ le32 1 ++ le32 4294967295 ++
      le32 4294967295 ++ le32 p2.1
    (head ++ ra.1 ++ rc.1 ++ tail, p2.2)

def regenAttrs : List XmlAttributeValue → StringChunkBuilder →
    List Nat × StringChunkBuilder
  | [], b => ([], b)
  | attr :: rest, b =>
    let pns : Nat × StringChunkBuilder :=
      match attr.namespaceUri with
      | some namespaceStr => b.put namespaceStr
      | none => (4294967295, b)
    let psd : Nat × StringChunkBuilder :=
      match attr.stringData with
      | some valueStr => pns.2.put valueStr
      | none => (4294967295, pns.2)
    let bytes := le32 pns.1 ++ le32 attr.nameIndex ++ le32 psd.1 ++
      le32 attr.valueType ++ le32 attr.data
    let next := regenAttrs rest psd.2
    (bytes ++ next.1, next.2)

def regenChildren : List XmlNode → StringChunkBuilder →
    List Nat × StringChunkBuilder
  | [], b => ([], b)
  | child :: rest, b =>
    let rc := child.regenerate b
    let next := regenChildren rest rc.2
    (rc.1 ++ next.1, next.2)

end

/-- `XmlContent::to_data`. -/
def XmlContent.toData (c : XmlContent) (b : StringChunkBuilder) :
    List Nat × StringChunkBuilder :=
  let pp := b.put c.namespacePfx
  let pu := pp.2.put c.namespaceUri
  let nsOpen := le32 START_NAMESPACE ++ le32 (4 * 6) ++ le32 1 ++
    le32 4294967295 ++ le32 pp.1 ++ le32 pu.1
  let body := c.rootNode.regenerate pu.2
  let pp2 := body.2.put c.namespacePfx
  let pu2 := pp2.2.put c.namespaceUri
  let nsClose := le32 END_NAMESPACE ++ le32 (4 * 6) ++ le32 1 ++
    le32 4294967295 ++ le32 pp2.1 ++ le32 pu2.1
  (nsOpen ++ body.1 ++ nsClose, pu2.2)

/-- `AndroidXml::regenerate`. -/
def AndroidXml.regenerate (ax : AndroidXml) (b : StringChunkBuilder) : List Nat :=
  let content := ax.content.toData b
  let stringChunkData := content.2.build
  let fileSize := 4 * 2 + stringChunkData.length + ax.resourceChunk.chunkSize +
    content.1.length
  le32 XML_MAGIC ++ le32 fileSize ++ stringChunkData ++
    ((List.range ax.resourceChunk.chunkSize).map
      (fun i => byteAt ax.data (ax.resourceChunk.chunkOffset + i))) ++
    content.1

/-- The pipeline of claim C2: parse, regenerate with a builder seeded from
the parsed string pool, reparse; returns the two root nodes. -/
def axmlRoundTrip (m : List Nat) : Option (XmlNode × XmlNode) :=
  (AndroidXml.fromData m).bind fun ax =>
    (StringChunkBuilder.fromStringChunk ax.stringChunk).bind fun b =>
      (AndroidXml.fromData (ax.regenerate b)).map fun ax2 =>
        (ax.content.rootNode, ax2.content.rootNode)

/-! ## Manifest facade (src/manifest/manifest_editor.rs) -/

def applicationTag : List Nat := [97, 112, 112, 108, 105, 99, 97, 116, 105, 111, 110]

def activityTag : List Nat := [97, 99, 116, 105, 118, 105, 116, 121]

def providerTag : List Nat := [112, 114, 111, 118, 105, 100, 101, 114]

def nameAttr : List Nat := [110, 97, 109, 101]

def authoritiesAttr : List Nat := [97, 117, 116, 104, 111, 114, 105, 116, 105, 101, 115]

/-- `http://schemas.android.com/apk/res/android` as scalar values. -/
def androidNsUri : List Nat :=
  [104, 116, 116, 112, 58, 47, 47, 115, 99, 104, 101, 109, 97, 115, 46, 97,
   110, 100, 114, 111, 105, 100, 46, 99, 111, 109, 47, 97, 112, 107, 47,
   114, 101, 115, 47, 97, 110, 100, 114, 111, 105, 100]

structure AndroidManifest where
  xml : AndroidXml
  stringChunkBuilder : StringChunkBuilder
  applicationNodeIndex : Nat
deriving Repr

/-- The index-search loop of `AndroidManifest::from`: the field starts at
0 and is set to the index of the first child tagged `application`. -/
def findAppIdxLoop : List XmlNode → Nat → Nat
  | [], _ => 0
  | c :: rest, i => if c.tagName = applicationTag then i else findAppIdxLoop rest (i + 1)

/-- `AndroidManifest::from` (index search, then builder seeding). -/
def AndroidManifest.fromData (data : List Nat) : Option AndroidManifest :=
  match AndroidXml.fromData data with
  | none => none
  | some ax =>
    let idx := findAppIdxLoop ax.content.rootNode.children 0
    match StringChunkBuilder.fromStringChunk ax.stringChunk with
    | none => none
    | some b =>
      some { xml := ax, stringChunkBuilder := b, applicationNodeIndex := idx }

/-- Replace the root node's child list inside a manifest. -/
def AndroidManifest.withRootChildren (m : AndroidManifest) (cs : List XmlNode) :
    AndroidManifest :=
  { m with xml := { m.xml with content :=
      { m.xml.content with rootNode := m.xml.content.rootNode.withChildren cs } } }

/-- The `<activity android:name=...>` node built by `add_activity`. -/
def newActivityNode (className : List Nat) (valueIndex : Nat) : XmlNode :=
  .mk activityTag
    [{ namespaceUri := some androidNsUri, nameIndex := 3, name := nameAttr,
       valueType := 0x3000008, stringData := some className, data := valueIndex }]
    []

/-- The `<provider>` node built by `add_content_provider`. -/
def newProviderNode (className authorities : List Nat)
    (nameValueIndex authoritiesValueIndex : Nat) : XmlNode :=
  .mk providerTag
    [{ namespaceUri := some androidNsUri, nameIndex := 3, name := nameAttr,
       valueType := 0x3000008, stringData := some className, data := nameValueIndex },
     { namespaceUri := some androidNsUri, nameIndex := 5, name := authoritiesAttr,
       valueType := 0x3000008, stringData := some authorities,
       data := authoritiesValueIndex }]
    []

/-- `AndroidManifest::add_activity`: indexes
`root.children[application_node_index]` (panic = `none` when out of
bounds, before any `put`), then interns the class name and pushes the new
child. -/
def AndroidManifest.addActivity (m : AndroidManifest) (className : List Nat) :
    Option AndroidManifest :=
  let children := m.xml.content.rootNode.children
  match children[m.applicationNodeIndex]? with
  | none => none
  | some application =>
    let pv := m.stringChunkBuilder.put className
    let application2 := application.pushChild (newActivityNode className pv.1)
    some { (m.withRootChildren (children.set m.applicationNodeIndex application2)) with
           stringChunkBuilder := pv.2 }

/-- `AndroidManifest::add_content_provider` (name interned before
authorities, as in the source). -/
def AndroidManifest.addContentProvider (m : AndroidManifest)
    (className authorities : List Nat) : Option AndroidManifest :=
  let children := m.xml.content.rootNode.children
  match children[m.applicationNodeIndex]? with
  | none => none
  | some application =>
    let pn := m.stringChunkBuilder.put className
    let pa := pn.2.put authorities
    let application2 := application.pushChild
      (newProviderNode className authorities pn.1 pa.1)
    some { (m.withRootChildren (children.set m.applicationNodeIndex application2)) with
           stringChunkBuilder := pa.2 }

/-! ## Concrete inputs used by the theorems -/

/-- A central-directory record image (fields in wire order, empty
extra/comment). -/
def cdRecord (method crc csize usize nameLen lfhOff : Nat) (name : List Nat) :
    List Nat :=
  le32 CENTRAL_DIRECTORY ++ le16 0 ++ le16 0 ++ le16 0 ++ le16 method ++
    le32 0 ++ le32 crc ++ le32 csize ++ le32 usize ++ le16 nameLen ++
    le16 0 ++ le16 0 ++ le16 0 ++ le16 0 ++ le32 0 ++ le32 lfhOff ++ name

/-- An EOCD record image. -/
def eocdRecord (count cdSize cdOffset commentLen : Nat) : List Nat :=
  le32 CENTRAL_DIRECTORY_END ++ le16 0 ++ le16 0 ++ le16 count ++ le16 count ++
    le32 cdSize ++ le32 cdOffset ++ le16 commentLen

/-- A local-file-header image. -/
def lfhRecord (method crc csize usize nameLen extLen : Nat)
    (name ext : List Nat) : List Nat :=
  le32 LOCAL_FILE_HEADER ++ le16 0 ++ le16 0 ++ le16 method ++ le32 0 ++
    le32 crc ++ le32 csize ++ le32 usize ++ le16 nameLen ++ le16 extLen ++
    name ++ ext

/-- Stand-ins for the external crates in concrete evaluations (the general
theorems hold for arbitrary `deflate`/`crc` functions). -/
def idDeflate : List Nat → List Nat := fun l => l

def zeroCrc : List Nat → Nat := fun _ => 0

/-- C4 counterexample input: one central-directory record declaring
compression method 1, then the EOCD. -/
def c4bad : List Nat := cdRecord 1 0 0 0 0 0 [] ++ eocdRecord 1 46 0 0

/-- A well-formed variant of `c4bad` (method 8 = Deflated). -/
def c4ok : List Nat := cdRecord 8 0 0 0 0 0 [] ++ eocdRecord 1 46 0 0

/-- C8 counterexample input: an EOCD whose magic is at offset 0 followed by
a 1-byte comment, so the magic is inside the scan window but below
offset 4. -/
def c8bad : List Nat := eocdRecord 0 0 0 1 ++ [65]

/-- C7 counterexample input: an archive whose entries are `classes.dex`
and `classes2.dex`. -/
def classesDexName : List Nat := [99, 108, 97, 115, 115, 101, 115, 46, 100, 101, 120]

def classes2DexName : List Nat :=
  [99, 108, 97, 115, 115, 101, 115, 50, 46, 100, 101, 120]

def c7bytes : List Nat :=
  cdRecord 8 0 0 0 11 0 classesDexName ++
    cdRecord 8 0 0 0 12 57 classes2DexName ++ eocdRecord 2 115 0 0

/-- C1 input: an archive with a single `Stored` entry `a` whose payload is
`hello` (5 bytes) and whose CRC field is 0x12345678. -/
def c1crc : Nat := 0x12345678

def c1bytes : List Nat :=
  lfhRecord 0 c1crc 5 5 1 0 [97] [] ++ [104, 101, 108, 108, 111] ++
    cdRecord 0 c1crc 5 5 1 0 [97] ++ eocdRecord 1 47 36 0

def fallbackZip : ZipFile :=
  { data := [], centralDirectoryOffset := 0, entries := [], fileNameMap := [] }

def c1zip : ZipFile := ((zipFrom c1bytes).toOption).getD fallbackZip

/-- The editor state of claim C1: the single `Stored` entry `a` edited to
the 3-byte payload `[1, 2, 3]`. -/
def c1editor : ZipEditor :=
  ((editorFrom c1zip).editFile c1zip [97] [1, 2, 3]).1

def c1out : List Nat :=
  (finishBytes idDeflate zeroCrc (some c1zip) c1editor 4).getD []

/-- The emitted entries / final offset / final count of the claim-C1 plan
(used to instantiate the C3 and C6 theorems concretely). -/
def c1core : List EntryEmit × Nat × Nat :=
  (finishCore idDeflate zeroCrc (some c1zip) c1editor 4).getD ([], 0, 0)

/-- C2 / C5 counterexample input: a 188-byte AXML document whose string
pool is `ns`, `uri`, `é` (U+00E9) and whose root element is `<é/>` with no
attributes and no children. -/
def mC2stringChunk : List Nat :=
  le32 STRING_CHUNK ++ le32 64 ++ le32 3 ++ le32 0 ++ le32 0 ++ le32 40 ++
    le32 0 ++ le32 0 ++ le32 8 ++ le32 18 ++
    ([2, 0, 110, 0, 115, 0, 0, 0] ++ [3, 0, 117, 0, 114, 0, 105, 0, 0, 0] ++
      [1, 0, 233, 0, 0, 0])

def mC2 : List Nat :=
  le32 XML_MAGIC ++ le32 188 ++ mC2stringChunk ++
    (le32 RESOURCE_CHUNK ++ le32 8) ++
    (le32 START_NAMESPACE ++ le32 24 ++ le32 1 ++ le32 4294967295 ++
      le32 0 ++ le32 1) ++
    (le32 START_TAG ++ le32 36 ++ le32 1 ++ le32 4294967295 ++
      le32 4294967295 ++ le32 2 ++ le32 0x00140014 ++ le32 0 ++ le32 0) ++
    (le32 END_TAG ++ le32 24 ++ le32 1 ++ le32 4294967295 ++
      le32 4294967295 ++ le32 2) ++
    (le32 END_NAMESPACE ++ le32 24 ++ le32 1 ++ le32 4294967295 ++
      le32 0 ++ le32 1)

/-- C5 counterexample builder: the strings `é` then `a`. -/
def c5builder : StringChunkBuilder :=
  ((StringChunkBuilder.new.put [233]).2.put [97]).2

/-- The value of `AndroidXml::regenerate` on `mC2` (verified below by
`mC2_regen_eq`; staging the pipeline through literal values keeps each
evaluation linear). -/
def mC2regen : List Nat :=
  [3, 0, 8, 0, 188, 0, 0, 0, 1, 0, 28, 0, 64, 0, 0, 0,
   3, 0, 0, 0, 0, 0, 0, 0, 0, 0, 0, 0, 40, 0, 0, 0,
   0, 0, 0, 0, 0, 0, 0, 0, 8, 0, 0, 0, 18, 0, 0, 0,
   2, 0, 110, 0, 115, 0, 0, 0, 3, 0, 117, 0, 114, 0, 105, 0,
   0, 0, 2, 0, 233, 0, 0, 0, 128, 1, 8, 0, 8, 0, 0, 0,
   0, 1, 16, 0, 24, 0, 0, 0, 1, 0, 0, 0, 255, 255, 255, 255,
   0, 0, 0, 0, 1, 0, 0, 0, 2, 1, 16, 0, 36, 0, 0, 0,
   1, 0, 0, 0, 255, 255, 255, 255, 255, 255, 255, 255, 2, 0, 0, 0,
   20, 0, 20, 0, 0, 0, 0, 0, 0, 0, 0, 0, 3, 1, 16, 0,
   24, 0, 0, 0, 1, 0, 0, 0, 255, 255, 255, 255, 255, 255, 255, 255,
   2, 0, 0, 0, 1, 1, 16, 0, 24, 0, 0, 0, 1, 0, 0, 0,
   255, 255, 255, 255, 0, 0, 0, 0, 1, 0, 0, 0]

def scA : StringChunk :=
  { data := mC2, chunkOffset := 8, chunkSize := 64, stringCount := 3,
    styleCount := 0, stringPoolOffset := 40, stylePoolOffset := 0,
    stringIndexGlobalOffset := 36, styleIndexGlobalOffset := 40 }

def rcA : ResourceChunk :=
  { data := mC2, chunkOffset := 72, chunkSize := 8, chunkCount := 0 }

def contentA : XmlContent :=
  { namespacePfx := [110, 115], namespaceUri := [117, 114, 105],
    rootNode := .mk [233] [] [] }

def axA : AndroidXml :=
  { data := mC2, stringChunk := scA, resourceChunk := rcA,
    content := contentA }

def bA : StringChunkBuilder :=
  { stringIndexMap := [([110, 115], 0), ([117, 114, 105], 1), ([233], 2)],
    stringArr := [[110, 115], [117, 114, 105], [233]] }

def sc2A : StringChunk :=
  { data := mC2regen, chunkOffset := 8, chunkSize := 64, stringCount := 3,
    styleCount := 0, stringPoolOffset := 40, stylePoolOffset := 0,
    stringIndexGlobalOffset := 36, styleIndexGlobalOffset := 40 }

def rc2A : ResourceChunk :=
  { data := mC2regen, chunkOffset := 72, chunkSize := 8, chunkCount := 0 }

def content2A : XmlContent :=
  { namespacePfx := [110, 115], namespaceUri := [117, 114, 105],
    rootNode := .mk [233, 0] [] [] }

def ax2A : AndroidXml :=
  { data := mC2regen, stringChunk := sc2A, resourceChunk := rc2A,
    content := content2A }

/-- C9/C10 witness fixtures: a one-entry archive view and the parsed
manifest value of `mC2`. -/
def c9entry : ZipEntry :=
  { originSize := 0, compressedSize := 0, fileName := [97], crc32 := 0,
    compressMethod := .stored, modifyTime := 0, localFileHeaderOffset := 0,
    centralDirectoryHeaderOffset := 0, entrySize := 0, extLen := 0 }

def c9zip : ZipFile :=
  { data := [], centralDirectoryOffset := 0, entries := [c9entry],
    fileNameMap := [([97], 0)] }

def mAL : AndroidManifest :=
  { xml := axA, stringChunkBuilder := bA, applicationNodeIndex := 0 }

/-! ## Theorems for the claims -/

/-- C1: evaluation at the failing input. `c1zip` parses to a single
`Stored` entry of uncompressed size 5; after `edit_file` with the 3-byte
payload `[1,2,3]`, `finish` emits a local file header (fields at offsets
14/18/22 of the output) and a central-directory record (the CD starts at
offset 35; fields at 51/55/59) whose `compressed_size` is 3 (the new
length) and whose `crc32` is the untouched original, but whose
`uncompressed_size` is still 5, the original entry's size — not the new
payload length the claim (and spec) state. -/
theorem c1_edited_stored_keeps_origin_size :
    c1zip.entries.map (fun e => (e.compressMethod, e.originSize, e.crc32)) =
      [(.stored, 5, c1crc)] ∧
    (c1editor.editableEntries.map (fun e => e.edit)) = [some [1, 2, 3]] ∧
    (finishBytes idDeflate zeroCrc (some c1zip) c1editor 4).isSome = true ∧
    getLeu32 c1out 18 = 3 ∧ getLeu32 c1out 14 = c1crc ∧
    getLeu32 c1out 22 = 5 ∧
    getLeu32 c1out 55 = 3 ∧ getLeu32 c1out 51 = c1crc ∧
    getLeu32 c1out 59 = 5 ∧ (5 : Nat) ≠ 3 := by decide

/-- C2: evaluation at the failing input. `mC2` is a valid AXML document
whose root tag is the one-scalar string `é` (`[233]`); parsing it,
regenerating with a builder seeded from its string pool, and reparsing
yields a root tag `[233, 0]` — the regenerated pool stores the UTF-8 byte
length 2 as the UTF-16 length of `é`, so reparsing reads the terminator as
part of the string and the element tree does not round-trip. -/
theorem mC2_parse_eq : AndroidXml.fromData mC2 = some axA := rfl

theorem mC2_seed_eq : StringChunkBuilder.fromStringChunk scA = some bA := rfl

theorem mC2_regen_eq : AndroidXml.regenerate axA bA = mC2regen := rfl

theorem mC2_reparse_eq : AndroidXml.fromData mC2regen = some ax2A := rfl

theorem c2_axml_roundtrip_changes_tree :
    (axmlRoundTrip mC2).map (fun p => (p.1.tagName, p.2.tagName)) =
      some ([233], [233, 0]) ∧
    ([233] : List Nat) ≠ [233, 0] := by
  refine ⟨?_, by decide⟩
  unfold axmlRoundTrip
  rw [mC2_parse_eq, Option.some_bind]
  show Option.map _ ((StringChunkBuilder.fromStringChunk scA).bind _) = _
  rw [mC2_seed_eq, Option.some_bind]
  show Option.map _ ((AndroidXml.fromData (AndroidXml.regenerate axA bA)).map _) = _
  rw [mC2_regen_eq, mC2_reparse_eq]
  rfl

/-- C5: evaluation at the failing input. For the builder holding `é` then
`a`, `build` writes (string payload area begins at byte 36): a 16-bit
length field of 2 for `é` — its UTF-8 byte length, not its UTF-16 unit
count 1 — followed by the single UTF-16 unit and the terminator, so the
second string's length field actually begins at payload offset 6 while the
index table (second entry at bytes 32..35) says 8. -/
theorem c5_build_writes_utf8_byte_length :
    c5builder.stringArr = [[233], [97]] ∧
    byteAt (c5builder.build) 36 = 2 ∧ byteAt (c5builder.build) 37 = 0 ∧
    utf8Len [233] = 2 ∧ (encodeUtf16 [233]).length = 1 ∧
    getLeu32 (c5builder.build) 28 = 0 ∧
    getLeu32 (c5builder.build) 32 = 8 ∧
    ((c5builder.build).drop 42).take 6 = [1, 0, 97, 0, 0, 0] ∧
    (8 : Nat) ≠ 6 := by decide

/-- C4 counterexample: a buffer whose single central-directory record
declares compression method 1. `ZipFile::from` panics (the `unwrap()` on
`CompressMethod::convert_from_u16`), modelled as `ZipAbort.crash`, which
is not a returned `ZipFormatError` of any offset/reason. -/
theorem c4_unknown_method_is_panic_not_format_error :
    getLeu16 c4bad 10 = 1 ∧
    zipFrom c4bad = .error .crash ∧
    ∀ off reason, (ZipAbort.crash : ZipAbort) ≠ .fmtErr off reason := by
  refine ⟨by decide, by decide, ?_⟩
  intro off reason h
  exact ZipAbort.noConfusion h

/-- C8 counterexample: a 23-byte buffer that is an EOCD record (magic at
offset 0) followed by a 1-byte comment. The magic lies inside the
65535+22-byte scan window, yet the scan stops with "Central directory end
not found" because it refuses to look below offset 4. -/
theorem c8_magic_in_window_not_found :
    c8bad.length = 23 ∧
    getLeu32 c8bad 0 = CENTRAL_DIRECTORY_END ∧
    c8bad.length - 22 - 0 ≤ 65535 + 22 ∧
    zipFrom c8bad = .error (.fmtErr 0 .eocdNotFound) := by decide

/-- C7 counterexample: an archive containing `classes.dex` and
`classes2.dex`. `ApkFile::from` counts 2 matching entries, so the next
`add_dex` chooses the name `classes2.dex`, which collides with the
existing entry of that name. -/
theorem c7_addDex_collides :
    (ApkFile.fromData c7bytes).toOption.map
        (fun a => dexFileName a.dexCount) = some classes2DexName ∧
    (ApkFile.fromData c7bytes).toOption.map
        (fun a => (mapGet a.zip.fileNameMap classes2DexName).isSome) = some true ∧
    (ApkFile.fromData c7bytes).toOption.map
        (fun a => ((a.addDex [1]).editor.appendEntries.map (fun x => x.fileName))) =
      some [classes2DexName] := by decide

/-! ### Shared helper lemmas -/

theorem writeLfh_length (fh : FileHeaderBuilder) (off align : Nat) :
    (fh.writeLfh off align).length = fh.lfhLen off align := by
  cases hext : fh.lfdExt <;>
    simp [FileHeaderBuilder.writeLfh, FileHeaderBuilder.lfhLen,
      FileHeaderBuilder.newExtLen, FileHeaderBuilder.originExtBytes,
      FileHeaderBuilder.originExtLen, hext, le32, le16] <;> omega

theorem writeCd_length (fh : FileHeaderBuilder) (off : Nat) :
    (fh.writeCd off).length = 46 + fh.fileName.length := by
  simp [FileHeaderBuilder.writeCd, le32, le16]
  omega

theorem alignCount_mod (a k : Nat) (hk : 0 < k) :
    (a + (k - a % k) % k) % k = 0 := by
  have h1 : a % k < k := Nat.mod_lt _ hk
  by_cases h0 : a % k = 0
  · rw [h0, Nat.sub_zero, Nat.mod_self, Nat.add_zero]
    exact h0
  · have h2 : (k - a % k) % k = k - a % k := Nat.mod_eq_of_lt (by omega)
    have h3 : a % k + (k - a % k) = k := by omega
    rw [Nat.add_mod]
    simp only [h2]
    rw [h3, Nat.mod_self]

theorem finishEditLoop_emits_shape (deflate : List Nat → List Nat)
    (crc : List Nat → Nat) (oz : ZipFile) (al : Nat) :
    ∀ entries off c em offF cF,
      finishEditLoop deflate crc oz al entries off c = some (em, offF, cF) →
      ∀ e ∈ em, e.lfhBytes = e.fh.writeLfh e.lfhOffset al ∧
        e.cdRec = e.fh.writeCd e.lfhOffset := by
  intro entries
  induction entries with
  | nil =>
    intro off c em offF cF h e he
    simp only [finishEditLoop] at h
    cases h
    cases he
  | cons x rest ih =>
    intro off c em offF cF h e he
    simp only [finishEditLoop] at h
    split at h
    · exact ih _ _ _ _ _ h e he
    · split at h
      · exact absurd h (by simp)
      · split at h
        · exact absurd h (by simp)
        · split at h
          · exact absurd h (by simp)
          · split at h
            · exact absurd h (by simp)
            · rename_i hrec
              cases h
              rcases List.mem_cons.mp he with rfl | hmem
              · exact ⟨rfl, rfl⟩
              · exact ih _ _ _ _ _ hrec e hmem

theorem finishAppendLoop_emits_shape (deflate : List Nat → List Nat)
    (crc : List Nat → Nat) (al : Nat) :
    ∀ appends off c,
      ∀ e ∈ (finishAppendLoop deflate crc al appends off c).1,
        e.lfhBytes = e.fh.writeLfh e.lfhOffset al ∧
        e.cdRec = e.fh.writeCd e.lfhOffset := by
  intro appends
  induction appends with
  | nil =>
    intro off c e he
    simp only [finishAppendLoop] at he
    cases he
  | cons x rest ih =>
    intro off c e he
    simp only [finishAppendLoop] at he
    rcases List.mem_cons.mp he with rfl | hmem
    · exact ⟨rfl, rfl⟩
    · exact ih _ _ e hmem

theorem finishCore_emits_shape (deflate : List Nat → List Nat)
    (crc : List Nat → Nat) (originZip : Option ZipFile) (ed : ZipEditor)
    (al : Nat) (emits : List EntryEmit) (offF cF : Nat)
    (h : finishCore deflate crc originZip ed al = some (emits, offF, cF)) :
    ∀ e ∈ emits, e.lfhBytes = e.fh.writeLfh e.lfhOffset al ∧
      e.cdRec = e.fh.writeCd e.lfhOffset := by
  intro e he
  unfold finishCore at h
  split at h
  · rename_i oz
    split at h
    · exact absurd h (by simp)
    · rename_i hloop
      cases h
      rcases List.mem_append.mp he with hmem | hmem
      · exact finishEditLoop_emits_shape deflate crc oz al _ _ _ _ _ _ hloop e hmem
      · exact finishAppendLoop_emits_shape deflate crc al _ _ _ e hmem
  · cases h
    exact finishAppendLoop_emits_shape deflate crc al _ _ _ e he

/-- C3: for every archive, edit plan, deflate/crc implementation and
`align > 0`, every entry emitted by `ZipEditor::finish` has its local
header bytes produced by `write_lfh` at its recorded offset; when its
emitted compression method is `Stored`, the payload start
(`lfh_offset + 30 + name_len + emitted extra_len`) is ≡ 0 (mod `align`),
the local header ends in `align_count` zero bytes appended after the
original extra field, and when the method is `Deflated` no alignment
padding is added. -/
theorem c3_finish_stored_aligned (deflate : List Nat → List Nat) (crc : List Nat → Nat)
    (originZip : Option ZipFile) (ed : ZipEditor) (align : Nat)
    (emits : List EntryEmit) (offF count : Nat)
    (h : finishCore deflate crc originZip ed align = some (emits, offF, count))
    (hal : 0 < align) :
    ∀ e ∈ emits,
      e.lfhBytes = e.fh.writeLfh e.lfhOffset align ∧
      (e.fh.compressMethod = .stored →
        (e.lfhOffset + 30 + e.fh.fileName.length +
            e.fh.newExtLen e.lfhOffset align) % align = 0) ∧
      (∃ pre, e.lfhBytes = pre ++
          List.replicate (alignCountOf e.fh e.lfhOffset align) 0 ∧
        pre.length = 30 + e.fh.fileName.length + e.fh.originExtLen) ∧
      (e.fh.compressMethod = .deflated →
        alignCountOf e.fh e.lfhOffset align = 0) := by
  intro e he
  obtain ⟨hshape, _⟩ := finishCore_emits_shape deflate crc originZip ed align
    emits offF count h e he
  refine ⟨hshape, ?_, ?_, ?_⟩
  · intro hst
    simp only [FileHeaderBuilder.newExtLen, alignCountOf, hst]
    simp only [ne_eq, not_true_eq_false, if_false]
    have key := alignCount_mod
      (e.lfhOffset + (30 + e.fh.fileName.length + e.fh.originExtLen)) align hal
    have harr : e.lfhOffset + 30 + e.fh.fileName.length +
        (e.fh.originExtLen +
          (align - (e.lfhOffset + (30 + e.fh.fileName.length +
            e.fh.originExtLen)) % align) % align) =
        e.lfhOffset + (30 + e.fh.fileName.length + e.fh.originExtLen) +
          (align - (e.lfhOffset + (30 + e.fh.fileName.length +
            e.fh.originExtLen)) % align) % align := by omega
    rw [harr]
    exact key
  · refine ⟨le32 LOCAL_FILE_HEADER ++ le16 0 ++ le16 0 ++
      le16 e.fh.compressMethod.value ++ le32 0 ++ le32 e.fh.crc32 ++
      le32 e.fh.compressSize ++ le32 e.fh.originSize ++
      le16 e.fh.fileName.length ++
      le16 (e.fh.newExtLen e.lfhOffset align) ++ e.fh.fileName ++
      e.fh.originExtBytes, ?_, ?_⟩
    · rw [hshape]
      simp [FileHeaderBuilder.writeLfh, List.append_assoc]
    · cases hext : e.fh.lfdExt <;>
        simp [le32, le16, FileHeaderBuilder.originExtBytes,
          FileHeaderBuilder.originExtLen, hext] <;> omega
  · intro hdf
    simp [alignCountOf, hdf]

theorem emitBody_append (a b : List EntryEmit) :
    emitBody (a ++ b) = emitBody a ++ emitBody b := by
  simp [emitBody]

theorem finishAppendLoop_off_count (deflate : List Nat → List Nat)
    (crc : List Nat → Nat) (al : Nat) :
    ∀ appends off c em offF cF,
      finishAppendLoop deflate crc al appends off c = (em, offF, cF) →
      offF = off + (emitBody em).length ∧ cF = c + em.length := by
  intro appends
  induction appends with
  | nil =>
    intro off c em offF cF h
    simp only [finishAppendLoop] at h
    cases h
    simp [emitBody]
  | cons a rest ih =>
    intro off c em offF cF h
    simp only [finishAppendLoop] at h
    cases h
    obtain ⟨h1, h2⟩ := ih
      ((emitOne (appendFh deflate crc a) (appendPayload deflate a) off al).2)
      (c + 1) _ _ _ rfl
    constructor
    · rw [h1]
      simp only [emitOne, emitBody, List.map_cons, List.flatten_cons,
        List.length_append, writeLfh_length]
      omega
    · rw [h2]
      simp only [List.length_cons]
      omega

theorem finishEditLoop_off_count (deflate : List Nat → List Nat)
    (crc : List Nat → Nat) (oz : ZipFile) (al : Nat) :
    ∀ entries off c em offF cF,
      finishEditLoop deflate crc oz al entries off c = some (em, offF, cF) →
      offF = off + (emitBody em).length ∧ cF = c + em.length := by
  intro entries
  induction entries with
  | nil =>
    intro off c em offF cF h
    simp only [finishEditLoop] at h
    cases h
    simp [emitBody]
  | cons x rest ih =>
    intro off c em offF cF h
    simp only [finishEditLoop] at h
    split at h
    · exact ih _ _ _ _ _ h
    · split at h
      · exact absurd h (by simp)
      · split at h
        · exact absurd h (by simp)
        · split at h
          · exact absurd h (by simp)
          · split at h
            · exact absurd h (by simp)
            · rename_i hrec
              cases h
              obtain ⟨h1, h2⟩ := ih _ _ _ _ _ hrec
              simp only [emitOne, emitBody, List.map_cons, List.flatten_cons,
                List.length_append, List.length_cons, writeLfh_length] at h1 h2 ⊢
              exact ⟨by omega, by omega⟩

theorem finishCore_off_count (deflate : List Nat → List Nat)
    (crc : List Nat → Nat) (originZip : Option ZipFile) (ed : ZipEditor)
    (al : Nat) (emits : List EntryEmit) (offF cF : Nat)
    (h : finishCore deflate crc originZip ed al = some (emits, offF, cF)) :
    offF = (emitBody emits).length ∧ cF = emits.length := by
  unfold finishCore at h
  split at h
  · rename_i oz
    split at h
    · exact absurd h (by simp)
    · rename_i em1 off1 c1 hloop
      cases h
      obtain ⟨e1, e2⟩ := finishEditLoop_off_count deflate crc oz al _ _ _ _ _ _ hloop
      obtain ⟨a1, a2⟩ := finishAppendLoop_off_count deflate crc al
        ed.appendEntries off1 c1 _ _ _ rfl
      rw [emitBody_append]
      constructor
      · rw [a1, e1]; simp
      · rw [a2, e2]; simp
  · cases h
    obtain ⟨a1, a2⟩ := finishAppendLoop_off_count deflate crc al
      ed.appendEntries 0 0 _ _ _ rfl
    exact ⟨by rw [a1]; omega, by rw [a2]; omega⟩

theorem le16_lor (v : Nat) (hv : v < 65536) :
    (v &&& 255) ||| ((v >>> 8) &&& 255) <<< 8 = v := by
  have h := getLeu16_le16 v [] hv
  simpa [getLeu16, byteAt, le16] using h

theorem le32_lor (v : Nat) (hv : v < 4294967296) :
    (v &&& 255) ||| ((v >>> 8) &&& 255) <<< 8 |||
      ((v >>> 16) &&& 255) <<< 16 ||| ((v >>> 24) &&& 255) <<< 24 = v := by
  have h := getLeu32_le32 v [] hv
  simpa [getLeu32, byteAt, le32] using h

theorem eocdBytes_fields (count cdSize cdOffset : Nat) (hc : count < 65536)
    (hs : cdSize < 4294967296) (ho : cdOffset < 4294967296) :
    getLeu16 (eocdBytes count cdSize cdOffset) 8 = count ∧
    getLeu16 (eocdBytes count cdSize cdOffset) 10 = count ∧
    getLeu32 (eocdBytes count cdSize cdOffset) 12 = cdSize ∧
    getLeu32 (eocdBytes count cdSize cdOffset) 16 = cdOffset := by
  refine ⟨?_, ?_, ?_, ?_⟩ <;>
    simp only [eocdBytes, le32, le16, List.cons_append, List.nil_append,
      getLeu16, getLeu32, byteAt, List.getD_cons_zero, List.getD_cons_succ]
  · exact le16_lor count hc
  · exact le16_lor count hc
  · exact le32_lor cdSize hs
  · exact le32_lor cdOffset ho


/-- C6: for every archive, edit plan, deflate/crc implementation and
alignment, the EOCD record written by `ZipEditor::finish` carries an
`entry_count` equal to the number of emitted central-directory records (in
both disk-count fields), a CD size equal to the byte length of the emitted
central directory, and a CD offset equal to the file offset of the first
CD record (the byte length of everything written before the CD). The
bounds assumptions only exclude values that cannot be represented in the
16/32-bit wire fields. -/
theorem c6_finish_eocd_fields (deflate : List Nat → List Nat)
    (crc : List Nat → Nat) (originZip : Option ZipFile) (ed : ZipEditor)
    (align : Nat) (emits : List EntryEmit) (offF count : Nat)
    (h : finishCore deflate crc originZip ed align = some (emits, offF, count))
    (hc : emits.length < 65536) (hcd : (emitCd emits).length < 4294967296)
    (hbody : (emitBody emits).length < 4294967296) :
    count = emits.length ∧
    offF = (emitBody emits).length ∧
    finishBytes deflate crc originZip ed align =
      some (emitBody emits ++ emitCd emits ++
        eocdBytes count (emitCd emits).length offF) ∧
    ∀ out, finishBytes deflate crc originZip ed align = some out →
      getLeu16 out ((emitBody emits).length + (emitCd emits).length + 8) =
        emits.length ∧
      getLeu16 out ((emitBody emits).length + (emitCd emits).length + 10) =
        emits.length ∧
      getLeu32 out ((emitBody emits).length + (emitCd emits).length + 12) =
        (emitCd emits).length ∧
      getLeu32 out ((emitBody emits).length + (emitCd emits).length + 16) =
        (emitBody emits).length := by
  obtain ⟨hoff, hcnt⟩ := finishCore_off_count deflate crc originZip ed align
    emits offF count h
  have hbytes : finishBytes deflate crc originZip ed align =
      some (emitBody emits ++ emitCd emits ++
        eocdBytes count (emitCd emits).length offF) := by
    unfold finishBytes
    rw [h]
  refine ⟨hcnt, hoff, hbytes, ?_⟩
  intro out hout
  rw [hbytes] at hout
  cases hout
  obtain ⟨f1, f2, f3, f4⟩ := eocdBytes_fields count (emitCd emits).length offF
    (by omega) hcd (by omega)
  have hsplit : emitBody emits ++ emitCd emits ++
      eocdBytes count (emitCd emits).length offF =
      (emitBody emits ++ emitCd emits) ++
        eocdBytes count (emitCd emits).length offF := rfl
  have hlen : (emitBody emits).length + (emitCd emits).length =
      (emitBody emits ++ emitCd emits).length := (List.length_append _ _).symm
  refine ⟨?_, ?_, ?_, ?_⟩
  · rw [hsplit, show (emitBody emits).length + (emitCd emits).length + 8 =
      (emitBody emits ++ emitCd emits).length + 8 from by rw [hlen],
      getLeu16_append_right, f1, hcnt]
  · rw [hsplit, show (emitBody emits).length + (emitCd emits).length + 10 =
      (emitBody emits ++ emitCd emits).length + 10 from by rw [hlen],
      getLeu16_append_right, f2, hcnt]
  · rw [hsplit, show (emitBody emits).length + (emitCd emits).length + 12 =
      (emitBody emits ++ emitCd emits).length + 12 from by rw [hlen],
      getLeu32_append_right, f3]
  · rw [hsplit, show (emitBody emits).length + (emitCd emits).length + 16 =
      (emitBody emits ++ emitCd emits).length + 16 from by rw [hlen],
      getLeu32_append_right, f4, hoff]

theorem convertFromU16_eq (v : Nat) (m : CompressMethod)
    (h : CompressMethod.convertFromU16 v = some m) : v = 0 ∨ v = 8 := by
  unfold CompressMethod.convertFromU16 at h
  split at h
  · exact Or.inl (by assumption)
  · split at h
    · exact Or.inr (by assumption)
    · exact absurd h (by simp)

theorem parseCdLoop_methods (data : List Nat) :
    ∀ fuel off entries map es m,
      parseCdLoop data fuel off entries map = .ok (es, m) →
      (∀ e ∈ entries,
        getLeu16 data (e.centralDirectoryHeaderOffset + 10) = 0 ∨
        getLeu16 data (e.centralDirectoryHeaderOffset + 10) = 8) →
      ∀ e ∈ es,
        getLeu16 data (e.centralDirectoryHeaderOffset + 10) = 0 ∨
        getLeu16 data (e.centralDirectoryHeaderOffset + 10) = 8 := by
  intro fuel
  induction fuel with
  | zero =>
    intro off entries map es m h hinv
    simp only [parseCdLoop] at h
    cases h
    exact hinv
  | succ f ih =>
    intro off entries map es m h hinv
    simp only [parseCdLoop] at h
    split at h
    · exact absurd h (by simp)
    · split at h
      · exact absurd h (by simp)
      · split at h
        · exact absurd h (by simp)
        · split at h
          · exact absurd h (by simp)
          · rename_i hconv
            refine ih _ _ _ _ _ h ?_
            intro e he
            rcases List.mem_append.mp he with hmem | hmem
            · exact hinv e hmem
            · rcases List.mem_singleton.mp hmem with rfl
              exact convertFromU16_eq _ _ hconv

/-- C4 (amended): `ZipFile::from` never succeeds with an entry whose
central-directory record declares a compression method other than 0
(`Stored`) or 8 (`Deflated`); the rejection, however, is a panic
(`unwrap()` of `None`), not a returned `ZipFormatError` — see the
counterexample `c4_unknown_method_is_panic_not_format_error`. -/
theorem c4_zipFrom_methods_known (data : List Nat) (zf : ZipFile)
    (h : zipFrom data = .ok zf) :
    ∀ e ∈ zf.entries,
      getLeu16 data (e.centralDirectoryHeaderOffset + 10) = 0 ∨
      getLeu16 data (e.centralDirectoryHeaderOffset + 10) = 8 := by
  simp only [zipFrom] at h
  split at h
  · exact absurd h (by simp)
  · split at h
    · exact absurd h (by simp)
    · rename_i heq
      cases h
      exact parseCdLoop_methods data _ _ _ _ _ _ heq (by intro e he; cases he)

theorem findEocdLoop_ok_iff (data : List Nat) (h26 : 26 ≤ data.length) :
    ∀ fuel seek, seek + fuel = 65536 →
      seek ≤ min 65535 (data.length - 26) →
      ((∃ o, findEocdLoop data fuel seek = .ok o) ↔
        ∃ s, seek ≤ s ∧ s ≤ min 65535 (data.length - 26) ∧
          getLeu32 data (data.length - 22 - s) = CENTRAL_DIRECTORY_END) := by
  intro fuel
  induction fuel with
  | zero =>
    intro seek hfs hsb
    omega
  | succ f ih =>
    intro seek hfs hsb
    simp only [findEocdLoop]
    by_cases hm : getLeu32 data (data.length - 22 - seek) = CENTRAL_DIRECTORY_END
    · rw [if_pos hm]
      exact iff_of_true ⟨_, rfl⟩ ⟨seek, le_refl _, hsb, hm⟩
    · rw [if_neg hm, if_neg (by omega)]
      by_cases hcond : data.length - 22 - (seek + 1) < 4 ∨ 65535 < seek + 1
      · rw [if_pos hcond]
        refine iff_of_false (by simp) ?_
        rintro ⟨s, hs1, hs2, hs3⟩
        have : s = seek := by omega
        exact hm (this ▸ hs3)
      · rw [if_neg hcond]
        have hnext := ih (seek + 1) (by omega) (by omega)
        rw [hnext]
        constructor
        · rintro ⟨s, hs1, hs2, hs3⟩
          exact ⟨s, by omega, hs2, hs3⟩
        · rintro ⟨s, hs1, hs2, hs3⟩
          refine ⟨s, ?_, hs2, hs3⟩
          rcases Nat.eq_or_lt_of_le hs1 with rfl | hlt
          · exact absurd hs3 hm
          · omega

/-- C8 (amended): for buffers of at least 26 bytes, the backward EOCD
scan of `ZipFile::from` succeeds iff the magic occurs at `len - 22 - s`
for some `s ≤ min 65535 (len - 26)`: the window is capped at 65535 + 22
bytes, but candidate offsets below 4 are additionally never probed (other
than `len - 22` itself), so an EOCD with a 65535-byte comment is found
only when at least 4 bytes precede it — see
`c8_magic_in_window_not_found` for the in-window failure. -/
theorem c8_findEocd_ok_iff (data : List Nat) (h26 : 26 ≤ data.length) :
    (∃ o, findEocd data = .ok o) ↔
      ∃ s, s ≤ min 65535 (data.length - 26) ∧
        getLeu32 data (data.length - 22 - s) = CENTRAL_DIRECTORY_END := by
  unfold findEocd
  rw [if_neg (by omega)]
  have h := findEocdLoop_ok_iff data h26 65536 0 (by omega) (by omega)
  rw [h]
  constructor
  · rintro ⟨s, _, hs2, hs3⟩
    exact ⟨s, hs2, hs3⟩
  · rintro ⟨s, hs2, hs3⟩
    exact ⟨s, Nat.zero_le _, hs2, hs3⟩

theorem c8_findEocd_ok_iff_witness :
    26 ≤ c4ok.length ∧ (∃ o, findEocd c4ok = .ok o) := by
  refine ⟨by decide, ?_⟩
  exact (c8_findEocd_ok_iff c4ok (by decide)).mpr ⟨0, by decide, by decide⟩

theorem natAscii_ne {m n : Nat} (hmn : m ≠ n) : natAscii m ≠ natAscii n :=
  fun h => hmn (natAscii_inj h)

theorem dexFileName_inj {m n : Nat} (h : dexFileName m = dexFileName n) : m = n := by
  unfold dexFileName at h
  have h2 : natAscii m = natAscii n := by
    simpa [List.append_assoc] using h
  exact natAscii_inj h2

/-- C7 (amended): `add_dex` appends an entry named
`classes{dex_count}.dex` where `dex_count` is the number of existing
`classes*.dex` names (this can collide with an existing entry — see
`c7_addDex_collides`); two successive `add_dex` calls produce the distinct
names `classes{N}.dex` and `classes{N+1}.dex`. -/
theorem c7_addDex_names (a : ApkFile) (d1 d2 : List Nat) :
    (a.addDex d1).editor.appendEntries =
      a.editor.appendEntries ++
        [{ data := d1, compressMethod := .deflated,
           fileName := dexFileName a.dexCount, modifyTime := 0 }] ∧
    ((a.addDex d1).addDex d2).editor.appendEntries =
      a.editor.appendEntries ++
        [{ data := d1, compressMethod := .deflated,
           fileName := dexFileName a.dexCount, modifyTime := 0 },
         { data := d2, compressMethod := .deflated,
           fileName := dexFileName (a.dexCount + 1), modifyTime := 0 }] ∧
    dexFileName a.dexCount ≠ dexFileName (a.dexCount + 1) := by
  refine ⟨rfl, ?_, ?_⟩
  · simp [ApkFile.addDex, ZipEditor.appendFile]
  · intro h
    exact absurd (dexFileName_inj h) (by omega)

theorem editorStep_preserves_removed (zip : ZipFile) (ed : ZipEditor)
    (op : EditorOp) (idx : Nat) (e : EditZipEntry)
    (h : ed.editableEntries[idx]? = some e) (hr : e.remove = true) :
    ∃ e2, (editorStep zip ed op).editableEntries[idx]? = some e2 ∧
      e2.remove = true := by
  cases op with
  | appendOp d n m => exact ⟨e, h, hr⟩
  | editOp n d =>
    simp only [editorStep, ZipEditor.editFile]
    split
    · exact ⟨e, h, hr⟩
    · rename_i j hj
      split
      · exact ⟨e, h, hr⟩
      · rename_i item hitem
        by_cases hij : j = idx
        · subst hij
          have hlt : j < ed.editableEntries.length :=
            (List.getElem?_eq_some.mp h).1
          have hie : item = e := by
            rw [hitem] at h
            exact Option.some.inj h
          refine ⟨{ item with edit := some d }, ?_, ?_⟩
          · simp [List.getElem?_set_self hlt]
          · rw [hie]
            exact hr
        · exact ⟨e, by simpa [List.getElem?_set_ne hij] using h, hr⟩
  | removeOp n =>
    simp only [editorStep, ZipEditor.removeFile]
    split
    · exact ⟨e, h, hr⟩
    · rename_i j hj
      split
      · exact ⟨e, h, hr⟩
      · rename_i item hitem
        by_cases hij : j = idx
        · subst hij
          have hlt : j < ed.editableEntries.length :=
            (List.getElem?_eq_some.mp h).1
          exact ⟨{ item with remove := true },
            by simp [List.getElem?_set_self hlt], rfl⟩
        · exact ⟨e, by simpa [List.getElem?_set_ne hij] using h, hr⟩

theorem applyOps_preserves_removed (zip : ZipFile) (ops : List EditorOp) :
    ∀ (ed : ZipEditor) (idx : Nat) (e : EditZipEntry),
      ed.editableEntries[idx]? = some e → e.remove = true →
      ∃ e2, (applyOps zip ed ops).editableEntries[idx]? = some e2 ∧
        e2.remove = true := by
  induction ops with
  | nil => exact fun ed idx e h hr => ⟨e, h, hr⟩
  | cons op rest ih =>
    intro ed idx e h hr
    obtain ⟨e2, h2, hr2⟩ := editorStep_preserves_removed zip ed op idx e h hr
    exact ih _ _ _ h2 hr2

theorem finishEditLoop_erase_removed (deflate : List Nat → List Nat)
    (crc : List Nat → Nat) (oz : ZipFile) (al : Nat) :
    ∀ (entries : List EditZipEntry) (idx : Nat) (e : EditZipEntry),
      entries[idx]? = some e → e.remove = true →
      ∀ off c, finishEditLoop deflate crc oz al entries off c =
        finishEditLoop deflate crc oz al (entries.eraseIdx idx) off c := by
  intro entries
  induction entries with
  | nil =>
    intro idx e h
    simp at h
  | cons x rest ih =>
    intro idx e h hr off c
    cases idx with
    | zero =>
      simp only [List.getElem?_cons_zero] at h
      have hx : x.remove = true := by
        rw [← Option.some.inj h] at hr
        exact hr
      simp only [List.eraseIdx_cons_zero]
      rw [finishEditLoop, if_pos hx]
    | succ n =>
      simp only [List.getElem?_cons_succ] at h
      simp only [List.eraseIdx_cons_succ]
      rw [finishEditLoop, finishEditLoop]
      simp only [ih n e h hr]

/-- C9: once `remove_file` has marked a source entry as removed, a
subsequent `edit_file` on the same name and any sequence of further
editor operations leave the remove flag set, and `ZipEditor::finish`
produces exactly the bytes it would produce if the entry were deleted
from the plan — the queued replacement payload is ignored. -/
theorem c9_remove_is_permanent (zip : ZipFile) (ed : ZipEditor)
    (name : List Nat) (data : List Nat) (ops : List EditorOp) (idx : Nat)
    (hidx : zip.getFileIndex name = some idx)
    (hlt : idx < ed.editableEntries.length) :
    (∃ entry,
      (applyOps zip ((((ed.removeFile zip name).1).editFile zip name
          data).1) ops).editableEntries[idx]? = some entry ∧
        entry.remove = true) ∧
    ∀ deflate crc align,
      finishBytes deflate crc (some zip)
          (applyOps zip ((((ed.removeFile zip name).1).editFile zip name
            data).1) ops) align =
        finishBytes deflate crc (some zip)
          { applyOps zip ((((ed.removeFile zip name).1).editFile zip name
              data).1) ops with
            editableEntries :=
              (applyOps zip ((((ed.removeFile zip name).1).editFile zip name
                data).1) ops).editableEntries.eraseIdx idx } align := by
  have hrm : ((ed.removeFile zip name).1).editableEntries[idx]? =
      some { ed.editableEntries[idx] with remove := true } := by
    simp only [ZipEditor.removeFile, hidx]
    rw [List.getElem?_eq_getElem hlt]
    simp [List.getElem?_set_self hlt]
  have hstep := editorStep_preserves_removed zip ((ed.removeFile zip name).1)
    (.editOp name data) idx _ hrm rfl
  obtain ⟨e2, h2, hr2⟩ := hstep
  have h2b : ((((ed.removeFile zip name).1).editFile zip name
      data).1).editableEntries[idx]? = some e2 := h2
  obtain ⟨entry, hentry, hrem⟩ :=
    applyOps_preserves_removed zip ops _ idx e2 h2b hr2
  refine ⟨⟨entry, hentry, hrem⟩, ?_⟩
  intro deflate crc align
  simp only [finishBytes, finishCore]
  rw [finishEditLoop_erase_removed deflate crc zip align _ idx entry
    hentry hrem]

theorem c9_remove_is_permanent_witness :
    (0 < (editorFrom c9zip).editableEntries.length) ∧
    (∃ entry,
      (applyOps c9zip (((((editorFrom c9zip).removeFile c9zip [97]).1).editFile
          c9zip [97] [5, 6]).1) []).editableEntries[0]? = some entry ∧
        entry.remove = true) :=
  ⟨by decide,
    (c9_remove_is_permanent c9zip (editorFrom c9zip) [97] [5, 6] [] 0
      (by decide) (by decide)).1⟩

theorem findAppIdxLoop_no_app (children : List XmlNode)
    (h : ∀ c ∈ children, c.tagName ≠ applicationTag) :
    ∀ i, findAppIdxLoop children i = 0 := by
  induction children with
  | nil => intro i; rfl
  | cons c rest ih =>
    intro i
    simp only [findAppIdxLoop]
    rw [if_neg (h c (by simp))]
    exact ih (fun x hx => h x (by simp [hx])) (i + 1)

/-- C10: if the root of a parsed manifest has no child tagged
`application`, `AndroidManifest::from` leaves `application_node_index` at
0, so `add_activity` and `add_content_provider` append their new element
to the root's first child whatever its tag is, and panic (model: `none`)
when the root has no children. -/
theorem c10_missing_application_fallback (d : List Nat) (m : AndroidManifest)
    (className authorities : List Nat)
    (hm : AndroidManifest.fromData d = some m)
    (hnone : ∀ c ∈ m.xml.content.rootNode.children, c.tagName ≠ applicationTag) :
    m.applicationNodeIndex = 0 ∧
    (m.xml.content.rootNode.children = [] →
      m.addActivity className = none ∧
      m.addContentProvider className authorities = none) ∧
    (∀ c0 cs, m.xml.content.rootNode.children = c0 :: cs →
      m.addActivity className = some
        { (m.withRootChildren
            ((c0.pushChild (newActivityNode className
              (m.stringChunkBuilder.put className).1)) :: cs)) with
          stringChunkBuilder := (m.stringChunkBuilder.put className).2 } ∧
      m.addContentProvider className authorities = some
        { (m.withRootChildren
            ((c0.pushChild (newProviderNode className authorities
              (m.stringChunkBuilder.put className).1
              ((m.stringChunkBuilder.put className).2.put authorities).1)) ::
              cs)) with
          stringChunkBuilder :=
            ((m.stringChunkBuilder.put className).2.put authorities).2 }) := by
  have hidx : m.applicationNodeIndex = 0 := by
    simp only [AndroidManifest.fromData] at hm
    split at hm
    · exact absurd hm (by simp)
    · split at hm
      · exact absurd hm (by simp)
      · cases hm
        exact findAppIdxLoop_no_app _ hnone 0
  refine ⟨hidx, ?_, ?_⟩
  · intro hempty
    constructor
    · simp [AndroidManifest.addActivity, hempty, hidx]
    · simp [AndroidManifest.addContentProvider, hempty, hidx]
  · intro c0 cs hcons
    constructor
    · simp [AndroidManifest.addActivity, hcons, hidx]
    · simp [AndroidManifest.addContentProvider, hcons, hidx]

/-- Witness for C4's theorem at the concrete archive `c4ok`. -/
theorem c4_zipFrom_methods_known_witness :
    ∃ zf, zipFrom c4ok = .ok zf ∧
      ∀ e ∈ zf.entries,
        getLeu16 c4ok (e.centralDirectoryHeaderOffset + 10) = 0 ∨
        getLeu16 c4ok (e.centralDirectoryHeaderOffset + 10) = 8 := by
  cases hzf : zipFrom c4ok with
  | error err =>
    have hs : (zipFrom c4ok).toOption.isSome = true := by decide
    rw [hzf] at hs
    simp [Except.toOption] at hs
  | ok zf => exact ⟨zf, rfl, c4_zipFrom_methods_known c4ok zf hzf⟩

/-- Witness for C3's theorem at the concrete plan of claim C1 (`c1zip`
with the `Stored` entry `a` edited, align 4). -/
theorem c3_finish_stored_aligned_witness :
    ∃ emits offF count,
      finishCore idDeflate zeroCrc (some c1zip) c1editor 4 =
        some (emits, offF, count) ∧
      ∀ e ∈ emits,
        e.lfhBytes = e.fh.writeLfh e.lfhOffset 4 ∧
        (e.fh.compressMethod = .stored →
          (e.lfhOffset + 30 + e.fh.fileName.length +
              e.fh.newExtLen e.lfhOffset 4) % 4 = 0) ∧
        (∃ pre, e.lfhBytes = pre ++
            List.replicate (alignCountOf e.fh e.lfhOffset 4) 0 ∧
          pre.length = 30 + e.fh.fileName.length + e.fh.originExtLen) ∧
        (e.fh.compressMethod = .deflated →
          alignCountOf e.fh e.lfhOffset 4 = 0) := by
  have hfc : finishCore idDeflate zeroCrc (some c1zip) c1editor 4 =
      some (c1core.1, c1core.2.1, c1core.2.2) := by decide
  exact ⟨c1core.1, c1core.2.1, c1core.2.2, hfc,
    c3_finish_stored_aligned idDeflate zeroCrc (some c1zip) c1editor 4
      c1core.1 c1core.2.1 c1core.2.2 hfc (by decide)⟩

/-- Witness for C6's theorem at the same concrete plan. -/
theorem c6_finish_eocd_fields_witness :
    ∃ emits offF count,
      finishCore idDeflate zeroCrc (some c1zip) c1editor 4 =
        some (emits, offF, count) ∧
      count = emits.length ∧ offF = (emitBody emits).length := by
  have hfc : finishCore idDeflate zeroCrc (some c1zip) c1editor 4 =
      some (c1core.1, c1core.2.1, c1core.2.2) := by decide
  obtain ⟨h1, h2, _⟩ := c6_finish_eocd_fields idDeflate zeroCrc
    (some c1zip) c1editor 4 c1core.1 c1core.2.1 c1core.2.2 hfc (by decide)
    (by decide) (by decide)
  exact ⟨c1core.1, c1core.2.1, c1core.2.2, hfc, h1, h2⟩

/-- Witness for C10's theorem at the parsed manifest of `mC2`, whose root
has no children at all (so no `application` child either). -/
theorem c10_missing_application_fallback_witness :
    mAL.applicationNodeIndex = 0 ∧ mAL.addActivity [97] = none ∧
    mAL.addContentProvider [97] [98] = none := by
  have hmal : AndroidManifest.fromData mC2 = some mAL := rfl
  have h := c10_missing_application_fallback mC2 mAL [97] [98] hmal
    (by intro c hc; exact absurd hc (by simp [mAL, axA, contentA, XmlNode.children]))
  have hempty : mAL.xml.content.rootNode.children = [] := rfl
  exact ⟨h.1, (h.2.1 hempty).1, (h.2.1 hempty).2⟩

end ApkEditor
